import Mathlib

/-!
The Markdown-to-PukiWiki renderer of md2puki.

A shallow embedding of `pkg/renderer/renderer.go` and `pkg/urlutil/escaper.go`.

* Go strings are byte sequences; a byte is a natural number below 256.
* A handler's `(string, error)` result is an `Except RenderError GoString`:
  every error return of the source carries the empty string.
* A run-time panic of the source (index out of range, failed type assertion,
  negative repeat count) is the error `RenderError.panic`; it travels upwards
  unchanged exactly as a panic unwinds the call stack.
* The node's parent link is passed down as the kind of the parent.
* A node carries the outcome of the library calls that resolve its text against the
  source buffer (`Segment.Value(src)`, `Text(src)`): the bytes, or `none` when a
  segment lies outside the buffer and the call panics.
* The three hook values of `renderChildren` (nil, the closure of `listItem`,
  the closure of `table`) are the three constructors of `Hook`.
-/

namespace Md2Puki

/-- A Go string: its bytes in order. -/
abbrev GoString := List Nat

/-- The bytes of an ASCII string literal. -/
def ascii (s : String) : GoString := s.data.map Char.toNat

/-- The library call `strings.Join(elems, sep)`. -/
def stringsJoin : List GoString → GoString → GoString
  | [], _ => []
  | [a], _ => a
  | a :: b :: rest, sep => a ++ sep ++ stringsJoin (b :: rest) sep

/-- The library call `strings.Split(s, "\n")`: the lines of `s`, empty ones included;
the empty string has the single line `""`. -/
def splitLines : GoString → List GoString
  | [] => [[]]
  | c :: cs =>
    if c = 10 then [] :: splitLines cs
    else
      match splitLines cs with
      | [] => [[c]]
      | l :: ls => (c :: l) :: ls

/-- The loop `for i, s := range split { split[i] = fn(i, s) }`, started at index `i`. -/
def mapLines (fn : Nat → GoString → GoString) : Nat → List GoString → List GoString
  | _, [] => []
  | i, l :: ls => fn i l :: mapLines fn (i + 1) ls

/-- The function `processLines` of the source. -/
def processLines (s : GoString) (fn : Nat → GoString → GoString) : GoString :=
  stringsJoin (mapLines fn 0 (splitLines s)) [10]

/-- The Go conversion `string(b)` of a byte `b`: the UTF-8 encoding of the code point
numbered `b`, one byte below 128 and two bytes from 128 on. -/
def stringOfByte (b : Nat) : GoString :=
  if b < 128 then [b] else [192 + b / 64, 128 + b % 64]

/-- The library call `strings.ToUpper` on ASCII input. -/
def stringsToUpper (s : GoString) : GoString :=
  s.map (fun c => if 97 ≤ c ∧ c ≤ 122 then c - 32 else c)

/-- The library call `strings.Repeat(s, count)` for a count that is not negative. -/
def stringsRepeat (s : GoString) : Nat → GoString
  | 0 => []
  | k + 1 => s ++ stringsRepeat s k

/-- The table extension's `Alignment`, an integer type with four named constants;
`AlignOther` stands for every other value of the type. -/
inductive Alignment where
  | AlignLeft
  | AlignRight
  | AlignCenter
  | AlignNone
  | AlignOther
  deriving DecidableEq, Repr

/-- The library method `Alignment.String()`. -/
def Alignment.String : Alignment → GoString
  | .AlignLeft => ascii "left"
  | .AlignRight => ascii "right"
  | .AlignCenter => ascii "center"
  | .AlignNone => ascii "none"
  | .AlignOther => []

/-- The dynamic type of a node together with the attributes the renderer reads.
`other` is a node type that the dispatch switch does not list. The lines of a code
block, the text of a link and the value of a text node are the outcomes of
`l.Value(src)` over the lines, of `n.Text(src)` and of `n.Segment.Value(src)`: `none`
when the call panics because a segment lies outside the source buffer. -/
inductive NodeKind where
  | autoLink
  | blockquote
  | codeBlock (lines : Option (List GoString))
  | codeSpan
  | document
  | emphasis (level : Int)
  | fencedCodeBlock (lines : Option (List GoString))
  | htmlBlock
  | heading (level : Int)
  | image (destination : GoString)
  | link (text : Option GoString) (destination : GoString)
  | list (ordered : Bool)
  | listItem
  | paragraph
  | rawHTML
  | stringNode
  | text (value : Option GoString) (hardLineBreak : Bool) (softLineBreak : Bool)
  | textBlock
  | thematicBreak
  | definitionDescription
  | definitionList
  | definitionTerm
  | footnote
  | footnoteBacklink
  | footnoteLink
  | footnoteList
  | strikethrough
  | table (alignments : List Alignment)
  | tableCell (alignment : Alignment)
  | tableHeader
  | tableRow
  | taskCheckBox
  | other (inline : Bool)
  deriving DecidableEq, Repr

/-- The test `Type() == ast.TypeInline` of the library, by node type. -/
def NodeKind.isInline : NodeKind → Bool
  | .autoLink => true
  | .codeSpan => true
  | .emphasis _ => true
  | .image _ => true
  | .link _ _ => true
  | .rawHTML => true
  | .stringNode => true
  | .text _ _ _ => true
  | .footnoteBacklink => true
  | .footnoteLink => true
  | .strikethrough => true
  | .taskCheckBox => true
  | .other inline => inline
  | _ => false

/-- A node of the document tree: its kind, the answer of `HasBlankPreviousLines()`,
and its children in document order. -/
inductive Node where
  | mk (kind : NodeKind) (blankPreviousLines : Bool) (children : List Node)

/-- The kind of a node. -/
def Node.kind : Node → NodeKind
  | .mk k _ _ => k

/-- The answer of `HasBlankPreviousLines()`. -/
def Node.blankPreviousLines : Node → Bool
  | .mk _ b _ => b

/-- The children of a node. -/
def Node.children : Node → List Node
  | .mk _ _ cs => cs

/-- The errors a handler can return: the two sentinels and a run-time panic. -/
inductive RenderError where
  | unhandledError
  | skipElement
  | panic
  deriving DecidableEq, Repr

/-- The result of a handler. -/
abbrev Result := Except RenderError GoString

/-- The hook argument of `renderChildren`. -/
inductive Hook where
  | nil
  | listItem (ordered : Bool)
  | table (alignments : List Alignment)

/-- The function `EscapeURL` of `pkg/urlutil`; `urlParse s` is `url.Parse(s)` followed by
`String()`, and `none` when `url.Parse` returns an error. -/
def EscapeURL (urlParse : GoString → Option GoString) (s : GoString) : GoString :=
  match urlParse s with
  | none => s
  | some u => u

/-- Handler `autoLink`. -/
def autoLink : Result := .error .unhandledError

/-- The line function of `blockquote`. -/
def blockquoteLine (i : Nat) (s : GoString) : GoString :=
  if i = 0 ∧ s.length = 0 then s
  else if s.length ≠ 0 ∧ s.head? = some 62 then 62 :: s
  else 62 :: 32 :: s

/-- Handler `blockquote`; `rc hook` is `r.renderChildren(src, n, hook)`. -/
def blockquote (rc : Hook → Result) : Result :=
  match rc .nil with
  | .error err => .error err
  | .ok s => .ok (processLines s blockquoteLine)

/-- Handler `codeBlock`; `lines` holds the values `l.Value(src)` of the lines, and is
`none` when one of these calls panics. -/
def codeBlock (lines : Option (List GoString)) : Result :=
  match lines with
  | none => .error .panic
  | some ls => .ok (stringsJoin (ls.map (fun l => 32 :: l)) [])

/-- Handler `codeSpan`. -/
def codeSpan (rc : Hook → Result) : Result :=
  match rc .nil with
  | .error err => .error err
  | .ok s => .ok ([39, 39] ++ s ++ [39, 39])

/-- Handler `document`. -/
def document : Result := .error .unhandledError

/-- Handler `emphasis`. -/
def emphasis (rc : Hook → Result) (level : Int) : Result :=
  match rc .nil with
  | .error err => .error err
  | .ok s =>
    if level = 1 then .ok ([39, 39, 39] ++ s ++ [39, 39, 39])
    else .ok ([39, 39] ++ s ++ [39, 39])

/-- Handler `fencedCodeBlock`; `lines` holds the values `l.Value(src)` of the lines, and
is `none` when one of these calls panics. -/
def fencedCodeBlock (lines : Option (List GoString)) : Result :=
  match lines with
  | none => .error .panic
  | some ls => .ok (stringsJoin (ls.map (fun l => 32 :: l)) [])

/-- Handler `htmlBlock`. -/
def htmlBlock : Result := .error .unhandledError

/-- Handler `heading`; `strings.Repeat` panics on a negative count. -/
def heading (rc : Hook → Result) (nLevel : Int) : Result :=
  let level := if nLevel > 3 then 3 else nLevel
  match rc .nil with
  | .error err => .error err
  | .ok g =>
    if level < 0 then .error .panic
    else .ok (stringsRepeat [42] level.toNat ++ [32] ++ g)

/-- Handler `image`. -/
def image (urlParse : GoString → Option GoString) (destination : GoString) : Result :=
  .ok (ascii "&ref(" ++ EscapeURL urlParse destination ++ ascii ");")

/-- Handler `link`; `text` is the outcome of `n.Text(src)`, `none` when the call
panics. -/
def link (urlParse : GoString → Option GoString) (text : Option GoString)
    (destination : GoString) : Result :=
  match text with
  | none => .error .panic
  | some t =>
    .ok (ascii "[[" ++ t ++ ascii ":" ++ EscapeURL urlParse destination ++ ascii "]]")

/-- Handler `list`. -/
def list : Result := .error .unhandledError

/-- The line function of the hook of `listItem`. -/
def listItemLine (_ : Nat) (s : GoString) : GoString :=
  match s with
  | [] => []
  | b :: _ => stringOfByte b ++ s

/-- The hook of `listItem`, applied to a child of kind `child`. -/
def listItemHook (ordered : Bool) (child : NodeKind) (generated : GoString) : Result :=
  match child with
  | .list _ => .ok (processLines generated listItemLine)
  | _ => if ordered then .ok (43 :: 32 :: generated) else .ok (45 :: 32 :: generated)

/-- Handler `listItem`; the type assertion on the parent panics unless the parent is a list. -/
def listItem (rc : Hook → Result) (parent : Option NodeKind) : Result :=
  match parent with
  | some (.list ordered) => rc (.listItem ordered)
  | _ => .error .panic

/-- Handler `paragraph`. -/
def paragraph : Result := .error .unhandledError

/-- Handler `rawHTML`. -/
def rawHTML : Result := .error .unhandledError

/-- Handler `stringNode`. -/
def stringNode : Result := .error .unhandledError

/-- Handler `text`; `value` is the outcome of `n.Segment.Value(src)`, `none` when the
call panics. -/
def text (value : Option GoString) (hardLineBreak softLineBreak : Bool) : Result :=
  match value with
  | none => .error .panic
  | some v => if hardLineBreak || softLineBreak then .ok (v ++ [10]) else .ok v

/-- Handler `textBlock`. -/
def textBlock : Result := .error .unhandledError

/-- Handler `thematicBreak`. -/
def thematicBreak : Result := .error .skipElement

/-- Handlers of the extension nodes that have no rule of their own. -/
def definitionDescription : Result := .error .unhandledError

/-- Handler `definitionList`. -/
def definitionList : Result := .error .unhandledError

/-- Handler `definitionTerm`. -/
def definitionTerm : Result := .error .unhandledError

/-- Handler `footnote`. -/
def footnote : Result := .error .unhandledError

/-- Handler `footnoteBacklink`. -/
def footnoteBacklink : Result := .error .unhandledError

/-- Handler `footnoteLink`. -/
def footnoteLink : Result := .error .unhandledError

/-- Handler `footnoteList`. -/
def footnoteList : Result := .error .unhandledError

/-- Handler `strikethrough`. -/
def strikethrough : Result := .error .unhandledError

/-- Handler `table`. -/
def table (rc : Hook → Result) (alignments : List Alignment) : Result :=
  rc (.table alignments)

/-- Handler `tableCell`. -/
def tableCell : Result := .error .unhandledError

/-- Handler `tableHeader`. -/
def tableHeader : Result := .error .unhandledError

/-- Handler `tableRow`. -/
def tableRow : Result := .error .unhandledError

/-- Handler `taskCheckBox`. -/
def taskCheckBox : Result := .error .unhandledError

/-- The walker of the hook of `table` at a cell it enters: `idx` and `results` are the
walker's variables, `cellAlignment` is `cell.Alignment`, and `rendered` is
`r.render(src, n)` for the cell. -/
def tableCellStep (alignments : List Alignment) (idx : Nat) (results : List GoString)
    (cellAlignment : Alignment) (rendered : Result) :
    Except RenderError (Nat × List GoString) :=
  match alignments[idx]? with
  | none => .error .panic
  | some columnAlignment =>
    let align := if cellAlignment ≠ .AlignNone then cellAlignment else columnAlignment
    match rendered with
    | .error err => .error err
    | .ok generated =>
      if align = .AlignNone then .ok (idx + 1, results ++ [124 :: generated])
      else .ok (idx + 1,
        results ++ [124 :: (stringsToUpper align.String ++ 58 :: generated)])

/-- The end of the hook of `table`: the cells joined and the row marker appended. -/
def tableRowEnd (isHeader : Bool) (walked : Except RenderError (Nat × List GoString)) :
    Result :=
  match walked with
  | .error err => .error err
  | .ok (_, results) =>
    let gen := stringsJoin results []
    if isHeader then .ok (gen ++ [124, 104]) else .ok (gen ++ [124])

/-- The spacing `renderChildren` puts before the fragment `s` of a child. -/
def spaceChild (inline first blank : Bool) (s : GoString) : GoString :=
  if inline then s
  else
    let s := if first then s else 10 :: s
    if blank then 10 :: s else s

mutual

/-- The method `render`: the dispatch on the node type, then the fallback. -/
def render (urlParse : GoString → Option GoString) (parent : Option NodeKind) :
    Node → Result
  | .mk kind _ children =>
    let rc : Hook → Result := fun hook => renderChildren urlParse kind hook children true []
    let r : Result :=
      match kind with
      | .autoLink => autoLink
      | .blockquote => blockquote rc
      | .codeBlock lines => codeBlock lines
      | .codeSpan => codeSpan rc
      | .document => document
      | .emphasis level => emphasis rc level
      | .fencedCodeBlock lines => fencedCodeBlock lines
      | .htmlBlock => htmlBlock
      | .heading level => heading rc level
      | .image destination => image urlParse destination
      | .link t destination => link urlParse t destination
      | .list _ => list
      | .listItem => listItem rc parent
      | .paragraph => paragraph
      | .rawHTML => rawHTML
      | .stringNode => stringNode
      | .text value hard soft => text value hard soft
      | .textBlock => textBlock
      | .thematicBreak => thematicBreak
      | .definitionDescription => definitionDescription
      | .definitionList => definitionList
      | .definitionTerm => definitionTerm
      | .footnote => footnote
      | .footnoteBacklink => footnoteBacklink
      | .footnoteLink => footnoteLink
      | .footnoteList => footnoteList
      | .strikethrough => strikethrough
      | .table alignments => table rc alignments
      | .tableCell _ => tableCell
      | .tableHeader => tableHeader
      | .tableRow => tableRow
      | .taskCheckBox => taskCheckBox
      | .other _ => .ok []
    match r with
    | .ok s => .ok s
    | .error .unhandledError => rc .nil
    | .error err => .error err

/-- The method `renderChildren` on the children still to be walked: `n` is the kind of
the node whose children they are, `first` tells whether the next child is
`n.FirstChild()`, and `rendered` is the slice built so far. -/
def renderChildren (urlParse : GoString → Option GoString) (n : NodeKind) (hook : Hook) :
    List Node → Bool → List GoString → Result
  | [], _, rendered => .ok (stringsJoin rendered [])
  | .mk k blank cs :: rest, first, rendered =>
    let r : Result :=
      match hook, render urlParse (some n) (.mk k blank cs) with
      | _, .error err => .error err
      | .nil, .ok s => .ok s
      | .listItem ordered, .ok s => listItemHook ordered k s
      | .table alignments, .ok _ =>
        match k with
        | .tableCell a =>
          tableRowEnd false
            (tableCellStep alignments 0 [] a (render urlParse (some n) (.mk k blank cs)))
        | _ =>
          tableRowEnd (decide (k = .tableHeader)) (tableWalk urlParse alignments k cs 0 [])
    match r with
    | .error .skipElement => renderChildren urlParse n hook rest false rendered
    | .error err => .error err
    | .ok s =>
      renderChildren urlParse n hook rest false
        (rendered ++ [spaceChild k.isInline first blank s])

/-- The `ast.Walk` of the hook of `table` below a node of kind `parent` that is not a
cell: cells are rendered and not entered, other nodes are entered. -/
def tableWalk (urlParse : GoString → Option GoString) (alignments : List Alignment)
    (parent : NodeKind) :
    List Node → Nat → List GoString → Except RenderError (Nat × List GoString)
  | [], idx, results => .ok (idx, results)
  | .mk k blank cs :: rest, idx, results =>
    let step : Except RenderError (Nat × List GoString) :=
      match k with
      | .tableCell a =>
        tableCellStep alignments idx results a (render urlParse (some parent) (.mk k blank cs))
      | _ => tableWalk urlParse alignments k cs idx results
    match step with
    | .error err => .error err
    | .ok (idx, results) => tableWalk urlParse alignments parent rest idx results

end

/-- The method `Render`: the text handed to the writer, or the error returned. -/
def Render (urlParse : GoString → Option GoString) (parent : Option NodeKind) (n : Node) :
    Result :=
  match render urlParse parent n with
  | .error err => .error err
  | .ok s =>
    if s.length ≠ 0 ∧ s.getLast? ≠ some 10 then .ok (s ++ [10]) else .ok s

/-- The node types whose handler returns `unhandledError`. -/
def NodeKind.isUnhandled : NodeKind → Bool
  | .autoLink => true
  | .document => true
  | .htmlBlock => true
  | .list _ => true
  | .paragraph => true
  | .rawHTML => true
  | .stringNode => true
  | .textBlock => true
  | .definitionDescription => true
  | .definitionList => true
  | .definitionTerm => true
  | .footnote => true
  | .footnoteBacklink => true
  | .footnoteLink => true
  | .footnoteList => true
  | .strikethrough => true
  | .tableCell _ => true
  | .tableHeader => true
  | .tableRow => true
  | .taskCheckBox => true
  | _ => false

/-- The fragment of one child inside `renderChildren`, after the hook and before the
spacing: the value the walker holds in `s, err` when it tests for `skipElement`. -/
def hookedChild (urlParse : GoString → Option GoString) (n : NodeKind) (hook : Hook) :
    Node → Result
  | .mk k blank cs =>
    match hook, render urlParse (some n) (.mk k blank cs) with
    | _, .error err => .error err
    | .nil, .ok s => .ok s
    | .listItem ordered, .ok s => listItemHook ordered k s
    | .table alignments, .ok _ =>
      match k with
      | .tableCell a =>
        tableRowEnd false
          (tableCellStep alignments 0 [] a (render urlParse (some n) (.mk k blank cs)))
      | _ =>
        tableRowEnd (decide (k = .tableHeader)) (tableWalk urlParse alignments k cs 0 [])

/-- The fallback join in the words of the specification: the fragments `fs` of the
children `cs` in document order, an inline child's fragment as it is, a non-inline
child's fragment after one newline when the child is not the first child and after one
further newline when the child is flagged as preceded by a blank line. -/
def fallbackJoin : Bool → List Node → List GoString → GoString
  | first, c :: cs, f :: fs =>
    (if c.kind.isInline then f
      else (if c.blankPreviousLines then [10] else []) ++ (if first then [] else [10]) ++ f)
      ++ fallbackJoin false cs fs
  | _, _, _ => []

/-- A parse-and-reformat function for the examples: every destination fails to parse. -/
def noParse : GoString → Option GoString := fun _ => none

/-- A text node without line-break marker holding the ASCII text `s`. -/
def plainText (s : String) : Node := .mk (.text (some (ascii s)) false false) false []

/-- The tree of the document `a`, blank line, an HTML block: a paragraph holding `a`
followed by an HTML block flagged as preceded by a blank line. -/
def paragraphThenHTML : Node :=
  .mk .document false [.mk .paragraph false [plainText "a"], .mk .htmlBlock true []]

/-- The tree of two paragraphs `a` and `b` separated by a blank line. -/
def twoParagraphs : Node :=
  .mk .document false
    [.mk .paragraph false [plainText "a"], .mk .paragraph true [plainText "b"]]

/-- A table cell: its own alignment, its blank-line flag and its children. -/
structure CellData where
  alignment : Alignment
  blank : Bool
  children : List Node

/-- A table row: header or body, its blank-line flag and its cells. -/
structure RowData where
  isHeader : Bool
  blank : Bool
  cells : List CellData

/-- The node of a table cell. -/
def CellData.node (c : CellData) : Node := .mk (.tableCell c.alignment) c.blank c.children

/-- The node of a table row: a `TableHeader` or a `TableRow` whose children are cells. -/
def RowData.node (r : RowData) : Node :=
  .mk (if r.isHeader then .tableHeader else .tableRow) r.blank (r.cells.map CellData.node)

/-- The effective alignment of the cell at column `j` in the words of the specification:
the cell's own alignment when it is not none, else the table's alignment at index `j`. -/
def effectiveAlignment (alignments : List Alignment) (j : Nat) (own : Alignment) : Alignment :=
  if own = .AlignNone then alignments.getD j .AlignNone else own

/-- The fragment of one cell in the words of the specification: `|` and the content when
the alignment is none, else `|`, the upper-cased alignment name, `:` and the content. -/
def cellFragmentSpec (align : Alignment) (content : GoString) : GoString :=
  if align = .AlignNone then ascii "|" ++ content
  else ascii "|" ++ stringsToUpper align.String ++ ascii ":" ++ content

/-- The cell fragments of a row from column `j` on, in the words of the specification. -/
def rowCellsSpec (alignments : List Alignment) : Nat → List CellData → List GoString → GoString
  | j, c :: cs, content :: contents =>
    cellFragmentSpec (effectiveAlignment alignments j c.alignment) content
      ++ rowCellsSpec alignments (j + 1) cs contents
  | _, _, _ => []

/-- The line of a row in the words of the specification: the cell fragments counted from
column 0, then `|h` for a header row and `|` for a body row. -/
def rowLineSpec (alignments : List Alignment) (r : RowData) (contents : List GoString) :
    GoString :=
  rowCellsSpec alignments 0 r.cells contents ++ (if r.isHeader then ascii "|h" else ascii "|")

/-- A table with the alignment list `[none, right, center]`: a header row of three cells
`A`, `B`, `C` and a body row of two cells `1`, `2`, the first of them aligned left by
its own attribute. -/
def shortRowTable : List RowData :=
  [ { isHeader := true, blank := false,
      cells := [⟨.AlignNone, false, [plainText "A"]⟩, ⟨.AlignNone, false, [plainText "B"]⟩,
        ⟨.AlignNone, false, [plainText "C"]⟩] },
    { isHeader := false, blank := false,
      cells := [⟨.AlignLeft, false, [plainText "1"]⟩, ⟨.AlignNone, false, [plainText "2"]⟩] } ]

/-- The table with two columns and alignment list `[left, right]`, the header row `A`, `B`
and the body row `1`, `2`, no cell carrying an alignment of its own. -/
def abTable : Node :=
  .mk (.table [.AlignLeft, .AlignRight]) false
    [ .mk .tableHeader false
        [ .mk (.tableCell .AlignNone) false [plainText "A"],
          .mk (.tableCell .AlignNone) false [plainText "B"] ],
      .mk .tableRow false
        [ .mk (.tableCell .AlignNone) false [plainText "1"],
          .mk (.tableCell .AlignNone) false [plainText "2"] ] ]

/-- A chain of `k` nested blockquotes around a paragraph holding the text `t`: every
blockquote is the only child of the one enclosing it and no node is flagged as preceded
by a blank line. -/
def quoteChain (t : GoString) : Nat → Node
  | 0 => .mk .paragraph false [.mk (.text (some t) false false) false []]
  | k + 1 => .mk .blockquote false [quoteChain t k]

/-- The test `n.(*ast.List)` on the kind of a node. -/
def NodeKind.isList : NodeKind → Bool
  | .list _ => true
  | _ => false

/-- The marker of a list: `+` when it is ordered and `-` when it is not. -/
def listMarker (ordered : Bool) : Nat := if ordered then 43 else 45

/-- A list item holding one text block with the text `t`, no blank-line flag set. -/
def textItem (t : GoString) : Node :=
  .mk .listItem false [.mk .textBlock false [.mk (.text (some t) false false) false []]]

/-- The children of a list item: a text block `x` and an unordered list with the single
item `y`. -/
def itemWithNestedList : List Node :=
  [.mk .textBlock false [plainText "x"], .mk (.list false) false [textItem (ascii "y")]]

/-- The tree of the nested list `- a` continued by the line `あ` (the bytes 227, 129,
130): an unordered list with one item whose text block holds the text `a` with a soft
line break and the text `あ`. -/
def nestedKanaList : Node :=
  .mk (.list false) false
    [.mk .listItem false
      [.mk .textBlock false
        [.mk (.text (some [97]) false true) false [],
          .mk (.text (some [227, 129, 130]) false false) false []]]]

/-- A text block holding the text `t`, no blank-line flag set. -/
def textBlockOf (t : GoString) : Node :=
  .mk .textBlock false [.mk (.text (some t) false false) false []]

/-- A chain of nested tight lists, outermost first: every level is given by the ordering
flag of its list and the text of its item; the list of a level has one item, which holds
the text block of the level and then the list of the next level, if there is one. -/
def listChain : Bool × GoString → List (Bool × GoString) → Node
  | (o, t), [] => .mk (.list o) false [.mk .listItem false [textBlockOf t]]
  | (o, t), x :: xs =>
    .mk (.list o) false [.mk .listItem false [textBlockOf t, listChain x xs]]

/-- The lines expected of a chain of lists whose first level is at depth `k`: the marker
of the level repeated as many times as the depth, one space, the text of the item. -/
def chainLines : Nat → List (Bool × GoString) → List GoString
  | _, [] => []
  | k, (o, t) :: rest =>
    (List.replicate k (listMarker o) ++ 32 :: t) :: chainLines (k + 1) rest

/-- The type switch of `render` as a function of the kind of the node: the result of the
handler, with `rc hook` standing for `r.renderChildren(src, n, hook)`. -/
def dispatch (urlParse : GoString → Option GoString) (parent : Option NodeKind)
    (rc : Hook → Result) : NodeKind → Result
  | .autoLink => autoLink
  | .blockquote => blockquote rc
  | .codeBlock lines => codeBlock lines
  | .codeSpan => codeSpan rc
  | .document => document
  | .emphasis level => emphasis rc level
  | .fencedCodeBlock lines => fencedCodeBlock lines
  | .htmlBlock => htmlBlock
  | .heading level => heading rc level
  | .image destination => image urlParse destination
  | .link t destination => link urlParse t destination
  | .list _ => list
  | .listItem => listItem rc parent
  | .paragraph => paragraph
  | .rawHTML => rawHTML
  | .stringNode => stringNode
  | .text value hard soft => text value hard soft
  | .textBlock => textBlock
  | .thematicBreak => thematicBreak
  | .definitionDescription => definitionDescription
  | .definitionList => definitionList
  | .definitionTerm => definitionTerm
  | .footnote => footnote
  | .footnoteBacklink => footnoteBacklink
  | .footnoteLink => footnoteLink
  | .footnoteList => footnoteList
  | .strikethrough => strikethrough
  | .table alignments => table rc alignments
  | .tableCell _ => tableCell
  | .tableHeader => tableHeader
  | .tableRow => tableRow
  | .taskCheckBox => taskCheckBox
  | .other _ => .ok []

/-- The hook with which the handler of a node of kind `k` under `parent` walks the
children of the node, and `none` when the handler does not walk them. -/
def childHook (parent : Option NodeKind) : NodeKind → Option Hook
  | .codeBlock _ => none
  | .fencedCodeBlock _ => none
  | .image _ => none
  | .link _ _ => none
  | .text _ _ _ => none
  | .thematicBreak => none
  | .other _ => none
  | .listItem =>
    match parent with
    | some (.list ordered) => some (.listItem ordered)
    | _ => none
  | .table alignments => some (.table alignments)
  | _ => some .nil

/-- The node `n` under `parent` is, or is an ancestor of, the first node in document
order at which the traversal meets the error `e`.
* `self`: rendering `n` itself yields `e`.
* `hook`: the handler of `n` walks its children, the children before `c` yield a
  fragment or are skipped, and the child `c` after its hook yields `e`.
* `above`: the handler of `n` walks its children, the children before `c` yield a
  fragment or are skipped, and `c` is itself such a node. -/
inductive FirstFatal (up : GoString → Option GoString) (e : RenderError) :
    Option NodeKind → Node → Prop where
  | self (parent : Option NodeKind) (n : Node) :
      render up parent n = .error e → FirstFatal up e parent n
  | hook (parent : Option NodeKind) (k : NodeKind) (blank : Bool) (pre : List Node)
      (c : Node) (post : List Node) (hk : Hook) :
      childHook parent k = some hk →
      (∀ x ∈ pre, ∀ e1, hookedChild up k hk x = .error e1 → e1 = .skipElement) →
      hookedChild up k hk c = .error e →
      FirstFatal up e parent (.mk k blank (pre ++ c :: post))
  | above (parent : Option NodeKind) (k : NodeKind) (blank : Bool) (pre : List Node)
      (c : Node) (post : List Node) (hk : Hook) :
      childHook parent k = some hk →
      (∀ x ∈ pre, ∀ e1, hookedChild up k hk x = .error e1 → e1 = .skipElement) →
      FirstFatal up e (some k) c →
      FirstFatal up e parent (.mk k blank (pre ++ c :: post))

/-- A document with the paragraph `a` followed by a blockquote that holds a list item:
the parent of the list item is not a list. -/
def strayListItem : Node :=
  .mk .document false
    [.mk .paragraph false [plainText "a"],
      .mk .blockquote false [.mk .listItem false [textBlockOf (ascii "b")]]]

/-- What the induction on the tree carries for a node: an error of `render` is a panic,
or the skip sentinel at a thematic break; an error of the table walk below the node is
a panic. -/
def SentinelsAbsorbed (up : GoString → Option GoString) (n : Node) : Prop :=
  (∀ parent e, render up parent n = .error e →
    e = .panic ∨ (e = .skipElement ∧ n.kind = .thematicBreak)) ∧
  (∀ al idx results e, tableWalk up al n.kind n.children idx results = .error e → e = .panic)

mutual

/-- The number of cells of a row: the cells the walk of the table hook meets at the
child `row` of a table (for a `TableHeader` or `TableRow` made of cells, its cells); a
cell counts for one and is not entered, any other node is entered. -/
def rowCells : Node → Nat
  | .mk k _ cs =>
    match k with
    | .tableCell _ => 1
    | _ => walkCells cs

/-- The number of cells the walk of the table hook meets in a list of siblings. -/
def walkCells : List Node → Nat
  | [] => 0
  | c :: rest => rowCells c + walkCells rest

end

/-- The guard of a node of kind `k` under `parent` with children `cs`: the parent of a
list item is a list, and no row of a table has more cells than the table has alignments. -/
def nodeGuard (parent : Option NodeKind) (k : NodeKind) (cs : List Node) : Bool :=
  match k with
  | .listItem =>
    match parent with
    | some (.list _) => true
    | _ => false
  | .table alignments => cs.all (fun c => decide (rowCells c ≤ alignments.length))
  | _ => true

mutual

/-- In the tree of `n` under `parent`, the parent of every list item is a list and every
table row has at most as many cells as the alignment list of its table has entries. -/
def wellFormed (parent : Option NodeKind) : Node → Bool
  | .mk k _ cs => nodeGuard parent k cs && wellFormedList k cs

/-- The condition `wellFormed` for the children of a node of kind `parent`. -/
def wellFormedList (parent : NodeKind) : List Node → Bool
  | [] => true
  | c :: cs => wellFormed (some parent) c && wellFormedList parent cs

end

mutual

/-- No heading of the tree has a negative level. -/
def levelsNonNegative : Node → Bool
  | .mk k _ cs =>
    (match k with
      | .heading level => decide (0 ≤ level)
      | _ => true) && levelsNonNegativeList cs

/-- The condition `levelsNonNegative` for a list of nodes. -/
def levelsNonNegativeList : List Node → Bool
  | [] => true
  | c :: cs => levelsNonNegative c && levelsNonNegativeList cs

end

/-- The text of a node of kind `k` resolves: the library calls that read its segments
against the source buffer (`Segment.Value(src)` of a text node, `l.Value(src)` over the
lines of a code block, `n.Text(src)` of a link) do not panic. -/
def kindResolves : NodeKind → Bool
  | .text value _ _ => value.isSome
  | .codeBlock lines => lines.isSome
  | .fencedCodeBlock lines => lines.isSome
  | .link t _ => t.isSome
  | _ => true

mutual

/-- Every text span, code-block line and link text of the tree lies within the source
buffer. -/
def spansResolve : Node → Bool
  | .mk k _ cs => kindResolves k && spansResolveList cs

/-- The condition `spansResolve` for a list of nodes. -/
def spansResolveList : List Node → Bool
  | [] => true
  | c :: cs => spansResolve c && spansResolveList cs

end

/-- What the induction on the tree carries for a well-formed node: `render` yields a
fragment unless the node is a thematic break, and the table walk below the node yields
the index advanced by the number of cells it met. -/
def RendersWhenWellFormed (up : GoString → Option GoString) (n : Node) : Prop :=
  (∀ parent, wellFormed parent n = true → levelsNonNegative n = true →
    spansResolve n = true → n.kind ≠ .thematicBreak → ∃ s, render up parent n = .ok s) ∧
  (∀ al idx results, wellFormedList n.kind n.children = true →
    levelsNonNegativeList n.children = true → spansResolveList n.children = true →
    idx + walkCells n.children ≤ al.length →
    ∃ r, tableWalk up al n.kind n.children idx results = .ok (idx + walkCells n.children, r))

/-- A document holding one heading of level `-1`: it has no list item and no table. -/
def negativeHeading : Node :=
  .mk .document false [.mk (.heading (-1)) false [plainText "t"]]

/-- A document holding one paragraph whose text segment lies outside the source buffer:
it has no list item, no table and no heading. -/
def danglingText : Node :=
  .mk .document false [.mk .paragraph false [.mk (.text none false false) false []]]

/-- A document holding a heading, a list with a nested list, the table `abTable`, a
thematic break, a paragraph with a link and a code block. -/
def sampleDocument : Node :=
  .mk .document false
    [.mk (.heading 2) false [plainText "T"],
      listChain (false, ascii "a") [(true, ascii "b")],
      abTable,
      .mk .thematicBreak true [],
      .mk .paragraph true [.mk (.link (some (ascii "x")) (ascii "u")) false [plainText "x"]],
      .mk (.codeBlock (some [ascii "c"])) false []]

/-- The chain `quoteChain` with the paragraph flagged as preceded by a blank line: `k`
nested blockquotes, none of them flagged, each the only child of the one enclosing it,
around a flagged paragraph holding the text `t`. -/
def flaggedQuoteChain (t : GoString) : Nat → Node
  | 0 => .mk .paragraph true [.mk (.text (some t) false false) false []]
  | k + 1 => .mk .blockquote false [flaggedQuoteChain t k]

end Md2Puki

namespace Md2Puki

/-! ## Unfolding the renderer -/

theorem stringsJoin_nil_sep (xs : List GoString) : stringsJoin xs [] = xs.flatten := by
  induction xs with
  | nil => rfl
  | cons a rest ih =>
    cases rest with
    | nil => simp [stringsJoin]
    | cons b rest => simp [stringsJoin, ih]

theorem renderChildren_nil (up : GoString → Option GoString) (n : NodeKind) (hook : Hook)
    (first : Bool) (rendered : List GoString) :
    renderChildren up n hook [] first rendered = .ok (stringsJoin rendered []) := rfl

theorem renderChildren_cons (up : GoString → Option GoString) (n : NodeKind) (hook : Hook)
    (c : Node) (rest : List Node) (first : Bool) (rendered : List GoString) :
    renderChildren up n hook (c :: rest) first rendered =
      match hookedChild up n hook c with
      | .error .skipElement => renderChildren up n hook rest false rendered
      | .error err => .error err
      | .ok s =>
        renderChildren up n hook rest false
          (rendered ++ [spaceChild c.kind.isInline first c.blankPreviousLines s]) := by
  cases c with
  | mk k blank cs => rfl

theorem render_unhandled (up : GoString → Option GoString) (parent : Option NodeKind)
    (k : NodeKind) (blank : Bool) (cs : List Node) (hk : k.isUnhandled = true) :
    render up parent (.mk k blank cs) = renderChildren up k .nil cs true [] := by
  cases k <;> first | rfl | simp [NodeKind.isUnhandled] at hk

theorem hookedChild_nil (up : GoString → Option GoString) (n : NodeKind) (c : Node) :
    hookedChild up n .nil c = render up (some n) c := by
  cases c with
  | mk k blank cs =>
    simp only [hookedChild]
    cases render up (some n) (.mk k blank cs) <;> rfl

theorem stringsJoin_snoc (xs : List GoString) (s : GoString) :
    stringsJoin (xs ++ [s]) [] = stringsJoin xs [] ++ s := by
  simp [stringsJoin_nil_sep]

theorem spaceChild_eq (c : Node) (first : Bool) (f : GoString) (rest : GoString) :
    spaceChild c.kind.isInline first c.blankPreviousLines f ++ rest =
      (if c.kind.isInline then f
        else (if c.blankPreviousLines then [10] else []) ++ (if first then [] else [10]) ++ f)
        ++ rest := by
  unfold spaceChild
  cases c.kind.isInline <;> cases first <;> cases c.blankPreviousLines <;> simp

/-- The walk of `renderChildren` when every child yields a fragment after the hook. -/
theorem renderChildren_ok (up : GoString → Option GoString) (n : NodeKind) (hook : Hook)
    (cs : List Node) (gs : List GoString)
    (h : List.Forall₂ (fun c g => hookedChild up n hook c = .ok g) cs gs)
    (first : Bool) (rendered : List GoString) :
    renderChildren up n hook cs first rendered =
      .ok (stringsJoin rendered [] ++ fallbackJoin first cs gs) := by
  induction h generalizing first rendered with
  | nil => simp [renderChildren_nil, fallbackJoin]
  | cons hc _ ih =>
    rw [renderChildren_cons, hc]
    simp only
    rw [ih, stringsJoin_snoc, fallbackJoin, List.append_assoc, spaceChild_eq]

/-- The fallback of an unhandled node whose children render to the fragments `fs`. -/
theorem render_unhandled_fallback_aux (up : GoString → Option GoString)
    (parent : Option NodeKind) (k : NodeKind) (blank : Bool) (cs : List Node)
    (fs : List GoString) (hk : k.isUnhandled = true)
    (h : List.Forall₂ (fun c f => render up (some k) c = .ok f) cs fs) :
    render up parent (.mk k blank cs) = .ok (fallbackJoin true cs fs) := by
  rw [render_unhandled up parent k blank cs hk]
  have h2 : List.Forall₂ (fun c g => hookedChild up k .nil c = .ok g) cs fs := by
    refine List.Forall₂.imp ?_ h
    intro c f hc
    rw [hookedChild_nil]
    exact hc
  rw [renderChildren_ok up k .nil cs fs h2]
  rfl

/-! ## Top-level `Render` -/

/-- C1 (as stated, refuted): the document made of the paragraph `a` and an HTML block
after a blank line renders successfully to the non-empty fragment `a\n\n`, and `Render`
writes `a\n\n`: the character before the final newline is a newline too. -/
theorem Render_keeps_two_trailing_newlines :
    render noParse none paragraphThenHTML = .ok [97, 10, 10] ∧
      Render noParse none paragraphThenHTML = .ok [97, 10, 10] :=
  ⟨rfl, rfl⟩

/-- C1 (amended): when the root renders successfully to a non-empty fragment `s`, the
text `Render` writes ends with a newline; it is `s` itself when `s` already ends with a
newline and `s` followed by one newline otherwise. -/
theorem Render_ends_with_newline (up : GoString → Option GoString)
    (parent : Option NodeKind) (n : Node) (s : GoString)
    (hr : render up parent n = .ok s) (hs : s ≠ []) :
    ∃ out, Render up parent n = .ok out ∧ out.getLast? = some 10 ∧
      (s.getLast? = some 10 → out = s) ∧ (s.getLast? ≠ some 10 → out = s ++ [10]) := by
  unfold Render
  rw [hr]
  by_cases hl : s.getLast? = some 10
  · refine ⟨s, ?_, hl, fun _ => rfl, fun h => absurd hl h⟩
    simp [hl]
  · refine ⟨s ++ [10], ?_, by simp, fun h => absurd h hl, fun _ => rfl⟩
    have : s.length ≠ 0 := by
      intro h0
      exact hs (List.length_eq_zero.mp h0)
    simp [hl, this]

theorem Render_ends_with_newline_witness :
    render noParse none twoParagraphs = .ok [97, 10, 10, 98] ∧
      ∃ out, Render noParse none twoParagraphs = .ok out ∧ out.getLast? = some 10 ∧
        (([97, 10, 10, 98] : GoString).getLast? = some 10 → out = [97, 10, 10, 98]) ∧
        (([97, 10, 10, 98] : GoString).getLast? ≠ some 10 → out = [97, 10, 10, 98] ++ [10]) :=
  ⟨rfl, Render_ends_with_newline noParse none twoParagraphs [97, 10, 10, 98] rfl (by decide)⟩

/-- C2: when the root renders to the empty fragment, `Render` succeeds and writes the
empty string. -/
theorem Render_empty (up : GoString → Option GoString) (parent : Option NodeKind)
    (n : Node) (h : render up parent n = .ok []) :
    Render up parent n = .ok [] := by
  unfold Render
  rw [h]
  rfl

theorem Render_empty_witness :
    render noParse none (.mk .document false []) = .ok [] ∧
      Render noParse none (.mk .document false []) = .ok [] :=
  ⟨rfl, Render_empty noParse none (.mk .document false []) rfl⟩

/-! ## The fallback for unhandled node types -/

/-- C3: a node of an unhandled type whose children render to the fragments `fs` renders
to the fallback join of `fs`: in document order, an inline child's fragment as it is, a
non-inline child's fragment after one newline when it is not the first child and after
one further newline when it is flagged as preceded by a blank line. -/
theorem render_unhandled_is_fallbackJoin (up : GoString → Option GoString)
    (parent : Option NodeKind) (k : NodeKind) (blank : Bool) (cs : List Node)
    (fs : List GoString) (hk : k.isUnhandled = true)
    (h : List.Forall₂ (fun c f => render up (some k) c = .ok f) cs fs) :
    render up parent (.mk k blank cs) = .ok (fallbackJoin true cs fs) := by
  exact render_unhandled_fallback_aux up parent k blank cs fs hk h

theorem render_unhandled_is_fallbackJoin_witness :
    NodeKind.document.isUnhandled = true ∧
      List.Forall₂ (fun c f => render noParse (some .document) c = .ok f)
        [.mk .paragraph false [plainText "a"], .mk .paragraph true [plainText "b"]]
        [[97], [98]] ∧
      render noParse none twoParagraphs = .ok [97, 10, 10, 98] :=
  ⟨rfl, .cons rfl (.cons rfl .nil),
    render_unhandled_is_fallbackJoin noParse none .document false _ [[97], [98]] rfl
      (.cons rfl (.cons rfl .nil))⟩

/-! ## Tables -/

theorem tableWalk_cell (up : GoString → Option GoString) (al : List Alignment)
    (parent : NodeKind) (c : CellData) (rest : List Node) (idx : Nat)
    (results : List GoString) :
    tableWalk up al parent (c.node :: rest) idx results =
      match tableCellStep al idx results c.alignment (render up (some parent) c.node) with
      | .error err => .error err
      | .ok (i, r) => tableWalk up al parent rest i r := rfl

theorem render_cell (up : GoString → Option GoString) (parent : Option NodeKind)
    (c : CellData) :
    render up parent c.node = renderChildren up (.tableCell c.alignment) .nil c.children true [] :=
  rfl

theorem tableCellStep_ok (al : List Alignment) (idx : Nat) (results : List GoString)
    (own : Alignment) (content : GoString) (hidx : idx < al.length) :
    tableCellStep al idx results own (.ok content) =
      .ok (idx + 1, results ++ [cellFragmentSpec (effectiveAlignment al idx own) content]) := by
  have hx : al[idx]? = some al[idx] := List.getElem?_eq_getElem hidx
  have hd : al.getD idx .AlignNone = al[idx] := by
    rw [List.getD_eq_getElem?_getD, hx]
    rfl
  unfold tableCellStep effectiveAlignment
  rw [hx, hd]
  generalize al[idx] = x
  by_cases ho : own = .AlignNone
  · subst ho
    by_cases hc : x = .AlignNone <;> simp [hc, cellFragmentSpec, ascii]
  · simp [ho, cellFragmentSpec, ascii]

/-- The walk of the table hook over a row made of cells whose contents render. -/
theorem tableWalk_cells (up : GoString → Option GoString) (al : List Alignment)
    (parent : NodeKind) (cells : List CellData) (contents : List GoString)
    (h : List.Forall₂ (fun c f =>
      renderChildren up (.tableCell c.alignment) .nil c.children true [] = .ok f) cells contents)
    (idx : Nat) (results : List GoString) (hlen : idx + cells.length ≤ al.length) :
    ∃ pieces, tableWalk up al parent (cells.map CellData.node) idx results
        = .ok (idx + cells.length, results ++ pieces) ∧
      pieces.flatten = rowCellsSpec al idx cells contents := by
  induction h generalizing idx results with
  | nil => exact ⟨[], by simp [tableWalk], by simp [rowCellsSpec]⟩
  | @cons c f cs fs hc _ ih =>
    simp only [List.length_cons] at hlen
    obtain ⟨pieces, hw, hp⟩ := ih (idx + 1)
      (results ++ [cellFragmentSpec (effectiveAlignment al idx c.alignment) f]) (by omega)
    refine ⟨cellFragmentSpec (effectiveAlignment al idx c.alignment) f :: pieces, ?_, ?_⟩
    · rw [List.map_cons, tableWalk_cell, render_cell, hc, tableCellStep_ok al idx results _ _ (by omega)]
      simp only
      rw [hw]
      simp [Nat.add_assoc, Nat.add_comm 1]
    · simp [rowCellsSpec, hp]

theorem render_row_ok (up : GoString → Option GoString) (parent : Option NodeKind)
    (r : RowData) (contents : List GoString)
    (h : List.Forall₂ (fun c f =>
      renderChildren up (.tableCell c.alignment) .nil c.children true [] = .ok f)
      r.cells contents) :
    ∃ g, render up parent r.node = .ok g := by
  have hk : (if r.isHeader then NodeKind.tableHeader else NodeKind.tableRow).isUnhandled = true := by
    cases r.isHeader <;> rfl
  refine ⟨fallbackJoin true (r.cells.map CellData.node) contents, ?_⟩
  unfold RowData.node
  refine render_unhandled_fallback_aux up parent _ r.blank _ contents hk ?_
  rw [List.forall₂_map_left_iff]
  exact h

/-- The table hook on a row made of cells: the line of the row. -/
theorem hookedChild_row (up : GoString → Option GoString) (al : List Alignment)
    (r : RowData) (contents : List GoString) (hlen : r.cells.length ≤ al.length)
    (h : List.Forall₂ (fun c f =>
      renderChildren up (.tableCell c.alignment) .nil c.children true [] = .ok f)
      r.cells contents) :
    hookedChild up (.table al) (.table al) r.node = .ok (rowLineSpec al r contents) := by
  obtain ⟨g, hg⟩ := render_row_ok up (some (.table al)) r contents h
  obtain ⟨pieces, hw, hp⟩ :=
    tableWalk_cells up al (if r.isHeader then .tableHeader else .tableRow) r.cells contents h
      0 [] (by omega)
  cases r with
  | mk isHeader blank cells =>
    cases isHeader <;>
      simp only [RowData.node, hookedChild, Bool.false_eq_true, if_false, if_true] at hg hw ⊢ <;>
      rw [hg] <;>
      simp [hw, tableRowEnd, rowLineSpec, stringsJoin_nil_sep, hp, ascii]

theorem render_table (up : GoString → Option GoString) (parent : Option NodeKind)
    (al : List Alignment) (blank : Bool) (cs : List Node) (s : GoString)
    (h : renderChildren up (.table al) (.table al) cs true [] = .ok s) :
    render up parent (.mk (.table al) blank cs) = .ok s := by
  show (match table (fun hook => renderChildren up (.table al) hook cs true []) al with
    | .ok s => .ok s
    | .error .unhandledError => renderChildren up (.table al) .nil cs true []
    | .error err => .error err) = Except.ok s
  unfold table
  simp only [h]

/-- C4: in a table whose rows are made of cells, no row having more cells than the
alignment list has entries, and whose cell contents render to `contents`, the table
renders to the fallback join of the row lines, the line of a row being the concatenation
over its cells, counted from 0 in that row, of `|` and the content when the effective
alignment is none and of `|`, the upper-cased alignment name, `:` and the content
otherwise, followed by `|h` for a header row and `|` for a body row. -/
theorem table_renders_row_lines (up : GoString → Option GoString)
    (parent : Option NodeKind) (al : List Alignment) (blank : Bool) (rows : List RowData)
    (contents : List (List GoString))
    (hlen : ∀ r ∈ rows, r.cells.length ≤ al.length)
    (hc : List.Forall₂ (fun r fs => List.Forall₂ (fun c f =>
      renderChildren up (.tableCell c.alignment) .nil c.children true [] = .ok f)
      r.cells fs) rows contents) :
    render up parent (.mk (.table al) blank (rows.map RowData.node)) =
      .ok (fallbackJoin true (rows.map RowData.node)
        (List.zipWith (rowLineSpec al) rows contents)) := by
  apply render_table
  have h2 : List.Forall₂ (fun c g => hookedChild up (.table al) (.table al) c = .ok g)
      (rows.map RowData.node) (List.zipWith (rowLineSpec al) rows contents) := by
    induction hc with
    | nil => exact .nil
    | @cons r fs rs fss hr _ ih =>
      rw [List.map_cons, List.zipWith_cons_cons]
      refine .cons (hookedChild_row up al r fs (hlen r (List.mem_cons_self _ _)) hr) ?_
      exact ih (fun r' hr' => hlen r' (List.mem_cons_of_mem _ hr'))
  rw [renderChildren_ok up (.table al) (.table al) _ _ h2]
  rfl

theorem table_renders_row_lines_witness :
    (∀ r ∈ shortRowTable, r.cells.length ≤ [Alignment.AlignNone, .AlignRight, .AlignCenter].length) ∧
      render noParse none
        (.mk (.table [.AlignNone, .AlignRight, .AlignCenter]) false
          (shortRowTable.map RowData.node)) =
        .ok (ascii "|A|RIGHT:B|CENTER:C|h\n|LEFT:1|RIGHT:2|") :=
  ⟨by decide,
    table_renders_row_lines noParse none [.AlignNone, .AlignRight, .AlignCenter] false
      shortRowTable [[[65], [66], [67]], [[49], [50]]] (by decide)
      (.cons (.cons rfl (.cons rfl (.cons rfl .nil))) (.cons (.cons rfl (.cons rfl .nil)) .nil))⟩

/-- C5 (as stated, refuted): the table with alignment list `[left, right]`, header `A`,
`B` and body `1`, `2` renders its header line as `|LEFT:A|RIGHT:B|h` and its body line as
`|LEFT:1|RIGHT:2|`, which are not the lines `|A|B|h` and `|1|RIGHT:2|`. -/
theorem abTable_lines_are_annotated :
    (render noParse none abTable).map splitLines =
        .ok [ascii "|LEFT:A|RIGHT:B|h", ascii "|LEFT:1|RIGHT:2|"] ∧
      ascii "|LEFT:A|RIGHT:B|h" ≠ ascii "|A|B|h" ∧
      ascii "|LEFT:1|RIGHT:2|" ≠ ascii "|1|RIGHT:2|" :=
  ⟨rfl, by decide, by decide⟩

/-- C5 (amended): the table with two columns and alignment list `[left, right]`, one
header row `A`, `B` and one body row `1`, `2`, no cell carrying an alignment of its own,
renders to the header line `|LEFT:A|RIGHT:B|h` and the body line `|LEFT:1|RIGHT:2|`. -/
theorem abTable_renders (up : GoString → Option GoString) (parent : Option NodeKind) :
    render up parent abTable = .ok (ascii "|LEFT:A|RIGHT:B|h\n|LEFT:1|RIGHT:2|") ∧
      splitLines (ascii "|LEFT:A|RIGHT:B|h\n|LEFT:1|RIGHT:2|") =
        [ascii "|LEFT:A|RIGHT:B|h", ascii "|LEFT:1|RIGHT:2|"] :=
  ⟨rfl, rfl⟩

/-! ## Blockquotes -/

theorem mapLines_length (fn : Nat → GoString → GoString) (k : Nat) (ls : List GoString) :
    (mapLines fn k ls).length = ls.length := by
  induction ls generalizing k with
  | nil => rfl
  | cons l ls ih => simp [mapLines, ih]

theorem mapLines_getElem? (fn : Nat → GoString → GoString) (k : Nat) (ls : List GoString)
    (i : Nat) : (mapLines fn k ls)[i]? = (ls[i]?).map (fn (k + i)) := by
  induction ls generalizing k i with
  | nil => simp [mapLines]
  | cons l ls ih =>
    cases i with
    | zero => simp [mapLines]
    | succ i =>
      simp only [mapLines, List.getElem?_cons_succ, ih]
      rw [Nat.add_assoc, Nat.add_comm 1 i]

theorem render_blockquote_ok (up : GoString → Option GoString) (parent : Option NodeKind)
    (blank : Bool) (cs : List Node) (s : GoString)
    (h : renderChildren up .blockquote .nil cs true [] = .ok s) :
    render up parent (.mk .blockquote blank cs) = .ok (processLines s blockquoteLine) := by
  show (match blockquote (fun hook => renderChildren up .blockquote hook cs true []) with
    | .ok s => .ok s
    | .error .unhandledError => renderChildren up .blockquote .nil cs true []
    | .error err => .error err) = Except.ok (processLines s blockquoteLine)
  unfold blockquote
  simp only [h]

/-- C6: the output of a blockquote is the fallback rendering `s` of its children with
every line transformed and the lines rejoined with newlines: a non-empty line starting
with `>` gets `>` prepended, any other non-empty line gets `>` and a space prepended,
and an empty first line stays empty. -/
theorem blockquote_transforms_lines (up : GoString → Option GoString)
    (parent : Option NodeKind) (blank : Bool) (cs : List Node) (s : GoString)
    (h : renderChildren up .blockquote .nil cs true [] = .ok s) :
    ∃ out, render up parent (.mk .blockquote blank cs) = .ok (stringsJoin out [10]) ∧
      out.length = (splitLines s).length ∧
      ∀ i l, (splitLines s)[i]? = some l →
        (l ≠ [] → l.head? = some 62 → out[i]? = some (62 :: l)) ∧
        (l ≠ [] → l.head? ≠ some 62 → out[i]? = some (62 :: 32 :: l)) ∧
        (i = 0 → l = [] → out[i]? = some []) := by
  refine ⟨mapLines blockquoteLine 0 (splitLines s), render_blockquote_ok up parent blank cs s h,
    mapLines_length _ _ _, ?_⟩
  intro i l hl
  rw [mapLines_getElem?, hl]
  simp only [Option.map_some', Nat.zero_add]
  refine ⟨fun hne hh => ?_, fun hne hh => ?_, fun hi he => ?_⟩
  · have : l.length ≠ 0 := fun h0 => hne (List.length_eq_zero.mp h0)
    simp [blockquoteLine, this, hh]
  · have : l.length ≠ 0 := fun h0 => hne (List.length_eq_zero.mp h0)
    simp [blockquoteLine, this, hh]
  · subst hi he
    simp [blockquoteLine]

theorem blockquote_transforms_lines_witness :
    renderChildren noParse .blockquote .nil
        [.mk .paragraph false [plainText "a"], .mk .blockquote true [.mk .paragraph false [plainText "b"]]]
        true [] = .ok (ascii "a\n\n> b") ∧
      ∃ out, render noParse none (.mk .blockquote false
          [.mk .paragraph false [plainText "a"],
            .mk .blockquote true [.mk .paragraph false [plainText "b"]]])
          = .ok (stringsJoin out [10]) ∧
        out.length = (splitLines (ascii "a\n\n> b")).length ∧
        ∀ i l, (splitLines (ascii "a\n\n> b"))[i]? = some l →
          (l ≠ [] → l.head? = some 62 → out[i]? = some (62 :: l)) ∧
          (l ≠ [] → l.head? ≠ some 62 → out[i]? = some (62 :: 32 :: l)) ∧
          (i = 0 → l = [] → out[i]? = some []) :=
  ⟨rfl, blockquote_transforms_lines noParse none false _ (ascii "a\n\n> b") rfl⟩

theorem splitLines_of_not_mem (s : GoString) (h : 10 ∉ s) : splitLines s = [s] := by
  induction s with
  | nil => rfl
  | cons c cs ih =>
    have hc : c ≠ 10 := fun e => h (by simp [e])
    have hcs : 10 ∉ cs := fun e => h (List.mem_cons_of_mem _ e)
    simp [splitLines, hc, ih hcs]

theorem processLines_single (s : GoString) (fn : Nat → GoString → GoString) (h : 10 ∉ s) :
    processLines s fn = fn 0 s := by
  simp [processLines, splitLines_of_not_mem s h, mapLines, stringsJoin]

theorem renderChildren_single_block (up : GoString → Option GoString) (n : NodeKind)
    (k : NodeKind) (cs : List Node) (f : GoString) (hk : k.isInline = false)
    (h : render up (some n) (.mk k false cs) = .ok f) :
    renderChildren up n .nil [.mk k false cs] true [] = .ok f := by
  have h2 : List.Forall₂ (fun c g => hookedChild up n .nil c = .ok g) [.mk k false cs] [f] :=
    .cons (by rw [hookedChild_nil]; exact h) .nil
  rw [renderChildren_ok up n .nil _ _ h2]
  simp [fallbackJoin, stringsJoin, Node.kind, Node.blankPreviousLines, hk]

theorem render_quoteChain_succ (up : GoString → Option GoString) (t : GoString)
    (ht : t ≠ []) (hnl : 10 ∉ t) (hq : t.head? ≠ some 62) (k : Nat)
    (parent : Option NodeKind) :
    render up parent (quoteChain t (k + 1)) = .ok (List.replicate (k + 1) 62 ++ 32 :: t) := by
  induction k generalizing parent with
  | zero =>
    have hc : renderChildren up .blockquote .nil [quoteChain t 0] true [] = .ok t := rfl
    have hlen : t.length ≠ 0 := fun h0 => ht (List.length_eq_zero.mp h0)
    show render up parent (.mk .blockquote false [quoteChain t 0]) = _
    rw [render_blockquote_ok up parent false _ t hc, processLines_single t _ hnl]
    simp [blockquoteLine, hlen, hq]
  | succ k ih =>
    have hs : (10 : Nat) ∉ List.replicate (k + 1) 62 ++ 32 :: t := by
      intro hm
      rcases List.mem_append.mp hm with h1 | h1
      · exact absurd (List.eq_of_mem_replicate h1) (by decide)
      · rcases List.mem_cons.mp h1 with h2 | h2
        · exact absurd h2 (by decide)
        · exact hnl h2
    have hc : renderChildren up .blockquote .nil [quoteChain t (k + 1)] true []
        = .ok (List.replicate (k + 1) 62 ++ 32 :: t) :=
      renderChildren_single_block up .blockquote .blockquote [quoteChain t k] _ rfl
        (ih (some .blockquote))
    show render up parent (.mk .blockquote false [quoteChain t (k + 1)]) = _
    rw [render_blockquote_ok up parent false _ _ hc, processLines_single _ _ hs]
    simp [blockquoteLine, List.replicate_succ]

theorem processLines_leading_newline (u : GoString) (fn : Nat → GoString → GoString)
    (h : 10 ∉ u) : processLines (10 :: u) fn = fn 0 [] ++ 10 :: fn 1 u := by
  simp [processLines, splitLines, splitLines_of_not_mem u h, mapLines, stringsJoin]

theorem not_mem_quoted (t : GoString) (hnl : 10 ∉ t) (k : Nat) :
    (10 : Nat) ∉ List.replicate k 62 ++ 32 :: t := by
  intro hm
  rcases List.mem_append.mp hm with h1 | h1
  · exact absurd (List.eq_of_mem_replicate h1) (by decide)
  · rcases List.mem_cons.mp h1 with h2 | h2
    · exact absurd h2 (by decide)
    · exact hnl h2

theorem render_flaggedQuoteChain_succ (up : GoString → Option GoString) (t : GoString)
    (ht : t ≠ []) (hnl : 10 ∉ t) (hq : t.head? ≠ some 62) (k : Nat)
    (parent : Option NodeKind) :
    render up parent (flaggedQuoteChain t (k + 1))
      = .ok (10 :: (List.replicate (k + 1) 62 ++ 32 :: t)) := by
  induction k generalizing parent with
  | zero =>
    have hc : renderChildren up .blockquote .nil [flaggedQuoteChain t 0] true []
        = .ok (10 :: t) := rfl
    have hlen : t.length ≠ 0 := fun h0 => ht (List.length_eq_zero.mp h0)
    show render up parent (.mk .blockquote false [flaggedQuoteChain t 0]) = _
    rw [render_blockquote_ok up parent false _ _ hc, processLines_leading_newline t _ hnl]
    simp [blockquoteLine, hlen, hq]
  | succ k ih =>
    have hc : renderChildren up .blockquote .nil [flaggedQuoteChain t (k + 1)] true []
        = .ok (10 :: (List.replicate (k + 1) 62 ++ 32 :: t)) :=
      renderChildren_single_block up .blockquote .blockquote [flaggedQuoteChain t k] _ rfl
        (ih (some .blockquote))
    show render up parent (.mk .blockquote false [flaggedQuoteChain t (k + 1)]) = _
    rw [render_blockquote_ok up parent false _ _ hc,
      processLines_leading_newline _ _ (not_mem_quoted t hnl (k + 1))]
    simp [blockquoteLine, List.replicate_succ]

/-- C7 (as stated, refuted): the chain of three nested blockquotes, none of them flagged,
around a paragraph that holds the text `quote` and is flagged as preceded by a blank
line renders as a newline followed by `>>> quote`, not as `>>> quote`. -/
theorem flagged_paragraph_keeps_leading_newline :
    1 ≤ 3 ∧ ascii "quote" ≠ [] ∧ 10 ∉ ascii "quote" ∧ (ascii "quote").head? ≠ some 62 ∧
      render noParse none (flaggedQuoteChain (ascii "quote") 3) = .ok (ascii "\n>>> quote") ∧
      ascii "\n>>> quote" ≠ ascii ">>> quote" :=
  ⟨by decide, by decide, by decide, by decide, rfl, by decide⟩

/-- C7 (amended): for `k` at least 1 and a single-line text `t` that is non-empty and
does not start with `>`, the chain of `k` nested blockquotes, none of them flagged,
around a paragraph holding `t` renders as `>` repeated `k` times, one space, then `t`
when the paragraph is not flagged as preceded by a blank line either, and as one newline
followed by that text when the paragraph is flagged. -/
theorem nested_blockquotes_prepend_one_marker (up : GoString → Option GoString)
    (parent : Option NodeKind) (k : Nat) (t : GoString) (hk : 1 ≤ k) (ht : t ≠ [])
    (hnl : 10 ∉ t) (hq : t.head? ≠ some 62) :
    render up parent (quoteChain t k) = .ok (List.replicate k 62 ++ 32 :: t) ∧
      render up parent (flaggedQuoteChain t k)
        = .ok (10 :: (List.replicate k 62 ++ 32 :: t)) := by
  obtain ⟨j, rfl⟩ : ∃ j, k = j + 1 := ⟨k - 1, by omega⟩
  exact ⟨render_quoteChain_succ up t ht hnl hq j parent,
    render_flaggedQuoteChain_succ up t ht hnl hq j parent⟩

theorem nested_blockquotes_prepend_one_marker_witness :
    1 ≤ 3 ∧ ascii "quote" ≠ [] ∧ 10 ∉ ascii "quote" ∧ (ascii "quote").head? ≠ some 62 ∧
      render noParse none (quoteChain (ascii "quote") 3) = .ok (ascii ">>> quote") ∧
      render noParse none (flaggedQuoteChain (ascii "quote") 3)
        = .ok (ascii "\n>>> quote") :=
  ⟨by decide, by decide, by decide, by decide,
    nested_blockquotes_prepend_one_marker noParse none 3 (ascii "quote") (by decide)
      (by decide) (by decide) (by decide)⟩

/-! ## Lists -/

theorem render_listItem_ok (up : GoString → Option GoString) (ordered : Bool)
    (blank : Bool) (cs : List Node) (s : GoString)
    (h : renderChildren up .listItem (.listItem ordered) cs true [] = .ok s) :
    render up (some (.list ordered)) (.mk .listItem blank cs) = .ok s := by
  show (match listItem (fun hook => renderChildren up .listItem hook cs true [])
      (some (.list ordered)) with
    | .ok s => .ok s
    | .error .unhandledError => renderChildren up .listItem .nil cs true []
    | .error err => .error err) = Except.ok s
  unfold listItem
  simp only [h]

theorem hookedChild_listItem (up : GoString → Option GoString) (ordered : Bool) (c : Node)
    (f : GoString) (h : render up (some .listItem) c = .ok f) :
    hookedChild up .listItem (.listItem ordered) c = listItemHook ordered c.kind f := by
  cases c with
  | mk k blank cs =>
    simp only [hookedChild, h, Node.kind]

/-- The walk of a list item whose children render to `fs`: the hooked fragments. -/
theorem listItem_hooked (up : GoString → Option GoString) (ordered : Bool)
    (cs : List Node) (fs : List GoString)
    (h : List.Forall₂ (fun c f => render up (some .listItem) c = .ok f) cs fs) :
    List.Forall₂ (fun c g => hookedChild up .listItem (.listItem ordered) c = .ok g) cs
      (List.zipWith (fun c f => if c.kind.isList then processLines f listItemLine
        else listMarker ordered :: 32 :: f) cs fs) := by
  induction h with
  | nil => exact .nil
  | @cons c f cs fs hc _ ih =>
    rw [List.zipWith_cons_cons]
    refine .cons ?_ ih
    rw [hookedChild_listItem up ordered c f hc]
    cases hk : c.kind <;> cases ordered <;> simp [listItemHook, NodeKind.isList, listMarker]

theorem stringsJoin_cons_newline (x : GoString) (xs : List GoString) :
    stringsJoin (x :: xs) [10] = x ++ (xs.map (fun y => 10 :: y)).flatten := by
  induction xs generalizing x with
  | nil => simp [stringsJoin]
  | cons y ys ih => simp [stringsJoin, ih y]

theorem fallbackJoin_textItems (g : GoString → GoString) (ts : List GoString) :
    fallbackJoin false (ts.map textItem) (ts.map g)
      = (ts.map (fun t => 10 :: g t)).flatten := by
  induction ts with
  | nil => rfl
  | cons t ts ih => simp [fallbackJoin, textItem, Node.kind, Node.blankPreviousLines,
      NodeKind.isInline, ih]

theorem render_textItem (up : GoString → Option GoString) (ordered : Bool) (t : GoString) :
    render up (some (.list ordered)) (textItem t) = .ok (listMarker ordered :: 32 :: t) := by
  cases ordered <;> rfl

/-- C8: a list item whose parent is a list and whose children render to `fs` renders to
the fallback join of the children's fragments in which the fragment of every child that
is not a list is prefixed with `+ ` when the enclosing list is ordered and with `- `
when it is not (the fragment of a child that is a list goes through the line function
of the hook); and a flat list of items, each holding one text block `t`, renders as the
lines marker, space, `t` joined by single newlines. -/
theorem listItem_prefixes_children (up : GoString → Option GoString) (ordered : Bool)
    (blank : Bool) (cs : List Node) (fs : List GoString)
    (h : List.Forall₂ (fun c f => render up (some .listItem) c = .ok f) cs fs)
    (parent : Option NodeKind) (listBlank : Bool) (ts : List GoString) :
    render up (some (.list ordered)) (.mk .listItem blank cs) =
        .ok (fallbackJoin true cs
          (List.zipWith (fun c f => if c.kind.isList then processLines f listItemLine
            else listMarker ordered :: 32 :: f) cs fs)) ∧
      render up parent (.mk (.list ordered) listBlank (ts.map textItem)) =
        .ok (stringsJoin (ts.map (fun t => listMarker ordered :: 32 :: t)) [10]) := by
  constructor
  · apply render_listItem_ok
    rw [renderChildren_ok up .listItem (.listItem ordered) cs _
      (listItem_hooked up ordered cs fs h)]
    rfl
  · have hitems : List.Forall₂ (fun c f => render up (some (.list ordered)) c = .ok f)
        (ts.map textItem) (ts.map (fun t => listMarker ordered :: 32 :: t)) := by
      rw [List.forall₂_map_left_iff, List.forall₂_map_right_iff, List.forall₂_same]
      intro t _
      exact render_textItem up ordered t
    rw [render_unhandled_fallback_aux up parent (.list ordered) listBlank _ _ rfl hitems]
    cases ts with
    | nil => rfl
    | cons t ts =>
      rw [List.map_cons, List.map_cons, stringsJoin_cons_newline, fallbackJoin,
        fallbackJoin_textItems]
      simp [textItem, Node.kind, NodeKind.isInline, Node.blankPreviousLines]
      rfl

theorem listItem_prefixes_children_witness :
    List.Forall₂ (fun c f => render noParse (some .listItem) c = .ok f) itemWithNestedList
        [ascii "x", ascii "- y"] ∧
      render noParse (some (.list true)) (.mk .listItem false itemWithNestedList) =
        .ok (ascii "+ x\n-- y") ∧
      render noParse none (.mk (.list true) false ([ascii "a", ascii "b"].map textItem)) =
        .ok (ascii "+ a\n+ b") :=
  ⟨.cons rfl (.cons rfl .nil),
    listItem_prefixes_children noParse true false itemWithNestedList [ascii "x", ascii "- y"]
      (.cons rfl (.cons rfl .nil)) none false [ascii "a", ascii "b"]⟩

theorem listItemLine_of_ascii (i b : Nat) (l : GoString) (hb : b < 128) :
    listItemLine i (b :: l) = b :: b :: l := by
  simp [listItemLine, stringOfByte, hb]

/-- C9 (the code at the failing input): in the item `x` of an unordered list with the
nested list `- a` / `あ`, the nested list renders to the lines `- a` and `あ` (bytes 227,
129, 130), and the item turns the second line into the bytes 195, 163, 227, 129, 130:
the two-byte encoding of the code point 227 followed by the line, which is neither the
first character of the line nor its first byte followed by the line. -/
theorem listItem_mangles_non_ascii_line :
    render noParse (some .listItem) nestedKanaList = .ok (ascii "- a\n" ++ [227, 129, 130]) ∧
      render noParse (some (.list false))
          (.mk .listItem false [.mk .textBlock false [plainText "x"], nestedKanaList]) =
        .ok (ascii "- x\n-- a\n" ++ [195, 163, 227, 129, 130]) ∧
      listItemLine 1 [227, 129, 130] = [195, 163, 227, 129, 130] ∧
      listItemLine 1 [227, 129, 130] ≠ [227, 129, 130] ++ [227, 129, 130] ∧
      listItemLine 1 [227, 129, 130] ≠ 227 :: [227, 129, 130] :=
  ⟨rfl, rfl, rfl, by decide, by decide⟩

/-! ## Headings -/

theorem stringsRepeat_single (c k : Nat) : stringsRepeat [c] k = List.replicate k c := by
  induction k with
  | zero => rfl
  | succ k ih => simp [stringsRepeat, ih, List.replicate_succ]

theorem render_heading_ok (up : GoString → Option GoString) (parent : Option NodeKind)
    (L : Int) (blank : Bool) (cs : List Node) (g : GoString) (hL : 0 ≤ L)
    (h : renderChildren up (.heading L) .nil cs true [] = .ok g) :
    render up parent (.mk (.heading L) blank cs) =
      .ok (List.replicate (min L 3).toNat 42 ++ 32 :: g) := by
  show (match heading (fun hook => renderChildren up (.heading L) hook cs true []) L with
    | .ok s => .ok s
    | .error .unhandledError => renderChildren up (.heading L) .nil cs true []
    | .error err => .error err) = Except.ok _
  unfold heading
  simp only [h]
  have hmin : (if L > 3 then 3 else L) = min L 3 := by
    split <;> omega
  rw [hmin]
  have hnn : ¬ min L 3 < 0 := by omega
  simp [hnn, stringsRepeat_single]

/-- C10: a heading of level `L` at least 1 whose children have the fallback rendering
`g` renders as `*` repeated `min L 3` times, one space, then `g`; from level 4 on the
marker is exactly three asterisks. -/
theorem heading_marker_is_capped (up : GoString → Option GoString)
    (parent : Option NodeKind) (L : Int) (blank : Bool) (cs : List Node) (g : GoString)
    (hL : 1 ≤ L) (h : renderChildren up (.heading L) .nil cs true [] = .ok g) :
    render up parent (.mk (.heading L) blank cs) =
        .ok (List.replicate (min L 3).toNat 42 ++ 32 :: g) ∧
      (4 ≤ L → render up parent (.mk (.heading L) blank cs) = .ok (42 :: 42 :: 42 :: 32 :: g)) := by
  have hr := render_heading_ok up parent L blank cs g (by omega) h
  refine ⟨hr, fun h4 => ?_⟩
  rw [hr]
  have : min L 3 = 3 := by omega
  rw [this]
  rfl

theorem heading_marker_is_capped_witness :
    (1 : Int) ≤ 4 ∧
      renderChildren noParse (.heading 4) .nil [plainText "Title"] true [] = .ok (ascii "Title") ∧
      render noParse none (.mk (.heading 4) false [plainText "Title"]) = .ok (ascii "*** Title") :=
  ⟨by decide, rfl,
    (heading_marker_is_capped noParse none 4 false [plainText "Title"] (ascii "Title")
      (by decide) rfl).2 (by decide)⟩

/-! ## Emphasis, code blocks, links and images, unlisted node types -/

theorem render_emphasis_ok (up : GoString → Option GoString) (parent : Option NodeKind)
    (L : Int) (blank : Bool) (cs : List Node) (s : GoString)
    (h : renderChildren up (.emphasis L) .nil cs true [] = .ok s) :
    render up parent (.mk (.emphasis L) blank cs) =
      (if L = 1 then Except.ok ([39, 39, 39] ++ s ++ [39, 39, 39])
        else Except.ok ([39, 39] ++ s ++ [39, 39])) := by
  show (match emphasis (fun hook => renderChildren up (.emphasis L) hook cs true []) L with
    | .ok s => .ok s
    | .error .unhandledError => renderChildren up (.emphasis L) .nil cs true []
    | .error err => .error err : Result) = _
  unfold emphasis
  simp only [h]
  by_cases h1 : L = 1 <;> simp only [h1, if_true, if_false]

/-- C11 (as stated, refuted): the emphasis of level 2 around the text `x` renders as `x`
between two apostrophes (byte 39) on each side, not three, and the emphasis of level 1
renders as `x` between three apostrophes on each side, not two. -/
theorem emphasis_levels_are_swapped :
    render noParse none (.mk (.emphasis 2) false [plainText "x"]) = .ok [39, 39, 120, 39, 39] ∧
      render noParse none (.mk (.emphasis 1) false [plainText "x"])
        = .ok [39, 39, 39, 120, 39, 39, 39] :=
  ⟨rfl, rfl⟩

/-- C11 (amended): an emphasis node whose children have the fallback rendering `s`
renders as `s` wrapped in exactly three apostrophes on each side when its level is 1
(normal emphasis) and in exactly two apostrophes on each side when its level is 2
(strong emphasis), as for every level other than 1. -/
theorem emphasis_delimiters (up : GoString → Option GoString) (parent : Option NodeKind)
    (L : Int) (blank : Bool) (cs : List Node) (s : GoString)
    (h : renderChildren up (.emphasis L) .nil cs true [] = .ok s) :
    (L = 1 → render up parent (.mk (.emphasis L) blank cs)
        = .ok ([39, 39, 39] ++ s ++ [39, 39, 39])) ∧
      (L = 2 → render up parent (.mk (.emphasis L) blank cs) = .ok ([39, 39] ++ s ++ [39, 39])) ∧
      (L ≠ 1 → render up parent (.mk (.emphasis L) blank cs) = .ok ([39, 39] ++ s ++ [39, 39])) := by
  have hr := render_emphasis_ok up parent L blank cs s h
  refine ⟨fun h1 => ?_, fun h2 => ?_, fun hn => ?_⟩
  · rw [hr, if_pos h1]
  · rw [hr, if_neg (by omega)]
  · rw [hr, if_neg hn]

theorem emphasis_delimiters_witness :
    renderChildren noParse (.emphasis 2) .nil [plainText "x"] true [] = .ok [120] ∧
      render noParse none (.mk (.emphasis 2) false [plainText "x"]) = .ok [39, 39, 120, 39, 39] :=
  ⟨rfl, (emphasis_delimiters noParse none 2 false [plainText "x"] [120] rfl).2.1 rfl⟩

/-- C12: a code block and a fenced code block whose literal lines resolve to `lines`
both render to the concatenation of a space followed by the line, over the lines in order, with
nothing between or after them; the lines `a\n`, `b\n` give ` a\n b\n`. -/
theorem code_blocks_prefix_each_line (up : GoString → Option GoString)
    (parent : Option NodeKind) (lines : List GoString) (blank : Bool) (cs : List Node) :
    render up parent (.mk (.codeBlock (some lines)) blank cs)
        = .ok (lines.map (fun l => 32 :: l)).flatten ∧
      render up parent (.mk (.fencedCodeBlock (some lines)) blank cs)
        = render up parent (.mk (.codeBlock (some lines)) blank cs) ∧
      render up parent (.mk (.codeBlock (some [ascii "a\n", ascii "b\n"])) blank cs)
        = .ok (ascii " a\n b\n") := by
  refine ⟨?_, rfl, rfl⟩
  show Except.ok (stringsJoin (lines.map (fun l => 32 :: l)) []) = _
  rw [stringsJoin_nil_sep]

/-- C16: a link whose text resolves to `t`, with destination `d`, renders as `[[`, `t`, `:`, the escaped
destination, `]]`; an image with destination `d` renders as `&ref(`, the escaped
destination, `);` whatever its children are; the destination goes through `EscapeURL`
once, which returns it unchanged when it fails to parse. -/
theorem link_and_image_escape_destination (up : GoString → Option GoString)
    (parent : Option NodeKind) (t d : GoString) (blank : Bool) (cs : List Node) :
    render up parent (.mk (.link (some t) d) blank cs)
        = .ok (ascii "[[" ++ t ++ ascii ":" ++ EscapeURL up d ++ ascii "]]") ∧
      render up parent (.mk (.image d) blank cs)
        = .ok (ascii "&ref(" ++ EscapeURL up d ++ ascii ");") ∧
      (up d = none → EscapeURL up d = d) ∧
      (∀ u, up d = some u → EscapeURL up d = u) := by
  refine ⟨rfl, rfl, fun h => ?_, fun u h => ?_⟩
  · simp [EscapeURL, h]
  · simp [EscapeURL, h]

theorem link_and_image_escape_destination_witness :
    render noParse none
          (.mk (.link (some (ascii "text")) (ascii "a b")) false [plainText "text"])
        = .ok (ascii "[[text:a b]]") ∧
      render noParse none (.mk (.image (ascii "a b")) false [plainText "alt"])
        = .ok (ascii "&ref(a b);") ∧
      EscapeURL noParse (ascii "a b") = ascii "a b" :=
  have h := link_and_image_escape_destination noParse none (ascii "text") (ascii "a b") false
    [plainText "text"]
  have h2 := link_and_image_escape_destination noParse none (ascii "text") (ascii "a b") false
    [plainText "alt"]
  ⟨h.1, h2.2.1, h.2.2.1 rfl⟩

/-- C20: a node whose type the dispatch switch does not list renders to the empty
fragment without error, whatever its children are: they are not visited. -/
theorem unlisted_node_renders_empty (up : GoString → Option GoString)
    (parent : Option NodeKind) (inline blank : Bool) (cs : List Node) :
    render up parent (.mk (.other inline) blank cs) = .ok [] :=
  rfl

/-! ## Lines of a rendered fragment -/

theorem splitLines_ne_nil (s : GoString) : splitLines s ≠ [] := by
  cases s with
  | nil => simp [splitLines]
  | cons c cs =>
    unfold splitLines
    split
    · simp
    · split <;> simp

theorem splitLines_no_newline (s : GoString) : ∀ l ∈ splitLines s, 10 ∉ l := by
  induction s with
  | nil => simp [splitLines]
  | cons c cs ih =>
    unfold splitLines
    split
    · intro l hl
      rcases List.mem_cons.mp hl with h | h
      · simp [h]
      · exact ih l h
    · rename_i hc
      split
      · rename_i heq
        exact absurd heq (splitLines_ne_nil cs)
      · rename_i l0 ls heq
        intro l hl
        rcases List.mem_cons.mp hl with h | h
        · subst h
          intro hm
          rcases List.mem_cons.mp hm with h1 | h1
          · exact hc h1.symm
          · exact ih l0 (by rw [heq]; exact List.mem_cons_self _ _) h1
        · exact ih l (by rw [heq]; exact List.mem_cons_of_mem _ h)

theorem splitLines_append_newline (a t : GoString) (ha : 10 ∉ a) :
    splitLines (a ++ 10 :: t) = a :: splitLines t := by
  induction a with
  | nil => simp [splitLines]
  | cons c cs ih =>
    have hc : c ≠ 10 := fun e => ha (by simp [e])
    have hcs : 10 ∉ cs := fun e => ha (List.mem_cons_of_mem _ e)
    simp [splitLines, hc, ih hcs]

theorem splitLines_stringsJoin (ls : List GoString) (hne : ls ≠ [])
    (h : ∀ l ∈ ls, 10 ∉ l) : splitLines (stringsJoin ls [10]) = ls := by
  induction ls with
  | nil => exact absurd rfl hne
  | cons a rest ih =>
    cases rest with
    | nil => simpa [stringsJoin] using splitLines_of_not_mem a (h a (List.mem_cons_self _ _))
    | cons b rest =>
      have ha : 10 ∉ a := h a (List.mem_cons_self _ _)
      have hrest := ih (by simp) (fun l hl => h l (List.mem_cons_of_mem _ hl))
      simp only [stringsJoin, List.append_assoc, List.singleton_append]
      rw [splitLines_append_newline a _ ha, hrest]

theorem mem_mapLines (fn : Nat → GoString → GoString) (k : Nat) (ls : List GoString)
    (x : GoString) (hx : x ∈ mapLines fn k ls) : ∃ i l, l ∈ ls ∧ x = fn i l := by
  induction ls generalizing k with
  | nil => simp [mapLines] at hx
  | cons l ls ih =>
    simp only [mapLines, List.mem_cons] at hx
    rcases hx with h | h
    · exact ⟨k, l, List.mem_cons_self _ _, h⟩
    · obtain ⟨i, l', hl', he⟩ := ih (k + 1) h
      exact ⟨i, l', List.mem_cons_of_mem _ hl', he⟩

theorem blockquoteLine_no_newline (i : Nat) (l : GoString) (h : 10 ∉ l) :
    10 ∉ blockquoteLine i l := by
  unfold blockquoteLine
  split
  · exact h
  · split <;> simp [h]

theorem splitLines_processLines_blockquote (s : GoString) :
    splitLines (processLines s blockquoteLine) = mapLines blockquoteLine 0 (splitLines s) := by
  unfold processLines
  apply splitLines_stringsJoin
  · intro h0
    have := mapLines_length blockquoteLine 0 (splitLines s)
    rw [h0] at this
    exact splitLines_ne_nil s (List.length_eq_zero.mp this.symm)
  · intro x hx
    obtain ⟨i, l, hl, he⟩ := mem_mapLines _ _ _ x hx
    rw [he]
    exact blockquoteLine_no_newline i l (splitLines_no_newline s l hl)

/-- C19: the output of a blockquote whose children have the fallback rendering `s` has
exactly as many lines as `s`; every output line other than an empty first line starts
with `>`; and an empty line of `s` that is not the first line becomes `>` followed by a
space. -/
theorem blockquote_keeps_line_count (up : GoString → Option GoString)
    (parent : Option NodeKind) (blank : Bool) (cs : List Node) (s : GoString)
    (h : renderChildren up .blockquote .nil cs true [] = .ok s) :
    ∃ o, render up parent (.mk .blockquote blank cs) = .ok o ∧
      (splitLines o).length = (splitLines s).length ∧
      (∀ i l, (splitLines o)[i]? = some l → ¬ (i = 0 ∧ l = []) → l.head? = some 62) ∧
      (∀ i, i ≠ 0 → (splitLines s)[i]? = some [] → (splitLines o)[i]? = some [62, 32]) := by
  refine ⟨processLines s blockquoteLine, render_blockquote_ok up parent blank cs s h, ?_, ?_, ?_⟩
  · rw [splitLines_processLines_blockquote, mapLines_length]
  · intro i l hl hnot
    rw [splitLines_processLines_blockquote, mapLines_getElem?] at hl
    cases hs : (splitLines s)[i]? with
    | none => simp [hs] at hl
    | some l0 =>
      simp only [hs, Option.map_some', Nat.zero_add, Option.some.injEq] at hl
      subst hl
      by_cases h1 : i = 0 ∧ l0.length = 0
      · exfalso
        apply hnot
        have hl0 : l0 = [] := List.length_eq_zero.mp h1.2
        refine ⟨h1.1, ?_⟩
        simp [blockquoteLine, h1.1, hl0]
      · unfold blockquoteLine
        rw [if_neg h1]
        split <;> rfl
  · intro i hi hs
    rw [splitLines_processLines_blockquote, mapLines_getElem?, hs]
    simp [blockquoteLine, hi]

theorem blockquote_keeps_line_count_witness :
    renderChildren noParse .blockquote .nil
        [.mk .paragraph false [plainText "a"], .mk .paragraph true [plainText "b"]] true []
        = .ok (ascii "a\n\nb") ∧
      ∃ o, render noParse none (.mk .blockquote false
          [.mk .paragraph false [plainText "a"], .mk .paragraph true [plainText "b"]])
          = .ok o ∧
        (splitLines o).length = (splitLines (ascii "a\n\nb")).length ∧
        (∀ i l, (splitLines o)[i]? = some l → ¬ (i = 0 ∧ l = []) → l.head? = some 62) ∧
        (∀ i, i ≠ 0 → (splitLines (ascii "a\n\nb"))[i]? = some [] →
          (splitLines o)[i]? = some [62, 32]) :=
  ⟨rfl, blockquote_keeps_line_count noParse none false _ (ascii "a\n\nb") rfl⟩

/-! ## Thematic breaks -/

theorem hookedChild_thematicBreak (up : GoString → Option GoString) (n : NodeKind)
    (hook : Hook) (blank : Bool) (cs : List Node) :
    hookedChild up n hook (.mk .thematicBreak blank cs) = .error .skipElement := by
  cases hook <;> rfl

theorem renderChildren_thematicBreak_cons (up : GoString → Option GoString) (n : NodeKind)
    (hook : Hook) (blank : Bool) (tcs post : List Node) (first : Bool)
    (rendered : List GoString) :
    renderChildren up n hook (.mk .thematicBreak blank tcs :: post) first rendered =
      renderChildren up n hook post false rendered := by
  rw [renderChildren_cons, hookedChild_thematicBreak]

theorem renderChildren_remove_thematicBreak (up : GoString → Option GoString) (n : NodeKind)
    (hook : Hook) (blank : Bool) (tcs post : List Node) (pre : List Node) (first : Bool)
    (rendered : List GoString) (h : first = false ∨ pre ≠ []) :
    renderChildren up n hook (pre ++ .mk .thematicBreak blank tcs :: post) first rendered =
      renderChildren up n hook (pre ++ post) first rendered := by
  induction pre generalizing first rendered with
  | nil =>
    rcases h with h | h
    · subst h
      rw [List.nil_append, List.nil_append, renderChildren_thematicBreak_cons]
    · exact absurd rfl h
  | cons c pre ih =>
    rw [List.cons_append, List.cons_append, renderChildren_cons, renderChildren_cons]
    cases hookedChild up n hook c with
    | error e =>
      cases e with
      | skipElement => exact ih false rendered (Or.inl rfl)
      | unhandledError => rfl
      | panic => rfl
    | ok s => exact ih false _ (Or.inl rfl)

/-- C13 (as stated, refuted): a document whose children are a thematic break and the
paragraph `a` renders to a newline followed by `a`, while the same document without the
thematic break renders to `a`. -/
theorem leading_thematicBreak_shifts_spacing :
    render noParse none (.mk .document false
        [.mk .thematicBreak false [], .mk .paragraph false [plainText "a"]]) = .ok [10, 97] ∧
      render noParse none (.mk .document false [.mk .paragraph false [plainText "a"]])
        = .ok [97] :=
  ⟨rfl, rfl⟩

/-- C13 (amended): a thematic break that is not the first child of its parent (in the
middle or last) contributes nothing and leaves the spacing of its siblings as it is:
the fallback rendering of the children equals the fallback rendering of the children
without it, and so does the rendering of a parent of an unhandled type; as the first
child it contributes nothing of its own and the remaining children are joined as
children that are not the first. -/
theorem thematicBreak_after_first_child_is_removable (up : GoString → Option GoString)
    (parent : Option NodeKind) (k : NodeKind) (blank tblank : Bool)
    (pre tcs post : List Node) (hpre : pre ≠ []) :
    renderChildren up k .nil (pre ++ .mk .thematicBreak tblank tcs :: post) true [] =
        renderChildren up k .nil (pre ++ post) true [] ∧
      (k.isUnhandled = true →
        render up parent (.mk k blank (pre ++ .mk .thematicBreak tblank tcs :: post)) =
          render up parent (.mk k blank (pre ++ post))) ∧
      renderChildren up k .nil (.mk .thematicBreak tblank tcs :: post) true [] =
        renderChildren up k .nil post false [] := by
  have h1 := renderChildren_remove_thematicBreak up k .nil tblank tcs post pre true []
    (Or.inr hpre)
  refine ⟨h1, fun hk => ?_, renderChildren_thematicBreak_cons up k .nil tblank tcs post true []⟩
  rw [render_unhandled up parent k blank _ hk, render_unhandled up parent k blank _ hk, h1]

theorem thematicBreak_after_first_child_is_removable_witness :
    [Node.mk .paragraph false [plainText "a"]] ≠ [] ∧
      render noParse none (.mk .document false
        ([.mk .paragraph false [plainText "a"]] ++ .mk .thematicBreak true [] ::
          [.mk .paragraph true [plainText "b"]])) =
        render noParse none (.mk .document false
          ([.mk .paragraph false [plainText "a"]] ++ [.mk .paragraph true [plainText "b"]])) :=
  ⟨by simp,
    (thematicBreak_after_first_child_is_removable noParse none .document false true
      [.mk .paragraph false [plainText "a"]] [] [.mk .paragraph true [plainText "b"]]
      (by simp)).2.1 rfl⟩

/-! ## Nested lists -/

theorem listMarker_cases (o : Bool) : listMarker o = 43 ∨ listMarker o = 45 := by
  cases o <;> simp [listMarker]

theorem chainLines_getElem? (k : Nat) (ls : List (Bool × GoString)) (j : Nat) :
    (chainLines k ls)[j]? =
      (ls[j]?).map (fun p => List.replicate (k + j) (listMarker p.1) ++ 32 :: p.2) := by
  induction ls generalizing k j with
  | nil => simp [chainLines]
  | cons p ls ih =>
    obtain ⟨o, t⟩ := p
    cases j with
    | zero => simp [chainLines]
    | succ j =>
      simp only [chainLines, List.getElem?_cons_succ, ih]
      rw [Nat.add_assoc, Nat.add_comm 1 j]

theorem chainLines_length (k : Nat) (ls : List (Bool × GoString)) :
    (chainLines k ls).length = ls.length := by
  induction ls generalizing k with
  | nil => rfl
  | cons p ls ih =>
    obtain ⟨o, t⟩ := p
    simp [chainLines, ih]

theorem chainLines_no_newline (k : Nat) (ls : List (Bool × GoString))
    (h : ∀ p ∈ ls, 10 ∉ p.2) : ∀ l ∈ chainLines k ls, 10 ∉ l := by
  induction ls generalizing k with
  | nil => simp [chainLines]
  | cons p ls ih =>
    obtain ⟨o, t⟩ := p
    intro l hl
    simp only [chainLines, List.mem_cons] at hl
    rcases hl with hl | hl
    · subst hl
      intro hm
      rcases List.mem_append.mp hm with h1 | h1
      · have := List.eq_of_mem_replicate h1
        rcases listMarker_cases o with ho | ho <;> omega
      · rcases List.mem_cons.mp h1 with h2 | h2
        · exact absurd h2 (by decide)
        · exact h (o, t) (List.mem_cons_self _ _) h2
    · exact ih (k + 1) (fun p hp => h p (List.mem_cons_of_mem _ hp)) l hl

theorem mapLines_listItemLine_chainLines (i k : Nat) (ls : List (Bool × GoString)) :
    mapLines listItemLine i (chainLines (k + 1) ls) = chainLines (k + 2) ls := by
  induction ls generalizing i k with
  | nil => rfl
  | cons p ls ih =>
    obtain ⟨o, t⟩ := p
    simp only [chainLines, mapLines, ih]
    congr 1
    have hm : listMarker o < 128 := by
      rcases listMarker_cases o with ho | ho <;> omega
    rw [List.replicate_succ, List.cons_append, listItemLine_of_ascii _ _ _ hm]
    simp [List.replicate_succ]

theorem processLines_chainLines (k : Nat) (ls : List (Bool × GoString)) (hne : ls ≠ [])
    (h : ∀ p ∈ ls, 10 ∉ p.2) :
    processLines (stringsJoin (chainLines (k + 1) ls) [10]) listItemLine =
      stringsJoin (chainLines (k + 2) ls) [10] := by
  unfold processLines
  rw [splitLines_stringsJoin _ _ (chainLines_no_newline (k + 1) ls h),
    mapLines_listItemLine_chainLines]
  intro h0
  have := chainLines_length (k + 1) ls
  rw [h0] at this
  exact hne (List.length_eq_zero.mp this.symm)

theorem listChain_kind (x : Bool × GoString) (xs : List (Bool × GoString)) :
    ∃ cs, listChain x xs = .mk (.list x.1) false cs := by
  obtain ⟨o, t⟩ := x
  cases xs with
  | nil => exact ⟨_, rfl⟩
  | cons y ys => exact ⟨_, rfl⟩

theorem render_listChain (up : GoString → Option GoString) (xs : List (Bool × GoString))
    (x : Bool × GoString) (parent : Option NodeKind) (h : ∀ p ∈ x :: xs, 10 ∉ p.2) :
    render up parent (listChain x xs) = .ok (stringsJoin (chainLines 1 (x :: xs)) [10]) := by
  induction xs generalizing x parent with
  | nil =>
    obtain ⟨o, t⟩ := x
    cases o <;> rfl
  | cons y ys ih =>
    obtain ⟨o, t⟩ := x
    have hin := ih y (some .listItem) (fun p hp => h p (List.mem_cons_of_mem _ hp))
    have hfs : List.Forall₂ (fun c f => render up (some .listItem) c = .ok f)
        [textBlockOf t, listChain y ys] [t, stringsJoin (chainLines 1 (y :: ys)) [10]] :=
      .cons rfl (.cons hin .nil)
    obtain ⟨ics, hk⟩ := listChain_kind y ys
    have hitem : render up (some (.list o))
        (.mk .listItem false [textBlockOf t, listChain y ys]) =
        .ok (stringsJoin (chainLines 1 ((o, t) :: y :: ys)) [10]) := by
      apply render_listItem_ok
      rw [renderChildren_ok up .listItem (.listItem o) _ _ (listItem_hooked up o _ _ hfs)]
      have hp := processLines_chainLines 0 (y :: ys) (by simp)
        (fun p hp => h p (List.mem_cons_of_mem _ hp))
      simp only [Nat.zero_add] at hp
      obtain ⟨yo, yt⟩ := y
      simp only [List.zipWith_cons_cons, List.zipWith_nil_right, fallbackJoin, hk, textBlockOf,
        Node.kind, Node.blankPreviousLines, NodeKind.isInline, NodeKind.isList, hp]
      simp [stringsJoin, chainLines]
    show render up parent (.mk (.list o) false [.mk .listItem false
      [textBlockOf t, listChain y ys]]) = _
    rw [render_unhandled up parent (.list o) false _ rfl]
    exact renderChildren_single_block up (.list o) .listItem _ _ rfl hitem

/-- C17: in a chain of nested tight lists given by its levels, outermost first, each a
list with its ordering flag and one item with a single-line text, the rendering of the
outermost list has one line per level, and the line of the level at depth `j + 1` is
the marker of the list of that level (`+` when it is ordered, `-` when it is not)
repeated `j + 1` times, one space, then the text of the item, whatever the ordering
flags of the other levels are. -/
theorem nested_list_marker_depth (up : GoString → Option GoString)
    (parent : Option NodeKind) (x : Bool × GoString) (xs : List (Bool × GoString))
    (h : ∀ p ∈ x :: xs, 10 ∉ p.2) :
    ∃ lines, render up parent (listChain x xs) = .ok (stringsJoin lines [10]) ∧
      lines.length = (x :: xs).length ∧
      ∀ j o t, (x :: xs)[j]? = some (o, t) →
        lines[j]? = some (List.replicate (j + 1) (listMarker o) ++ 32 :: t) := by
  refine ⟨chainLines 1 (x :: xs), render_listChain up xs x parent h, chainLines_length _ _, ?_⟩
  intro j o t hj
  rw [chainLines_getElem?, hj]
  simp [Nat.add_comm]

theorem nested_list_marker_depth_witness :
    (∀ p ∈ [(true, ascii "a"), (false, ascii "b"), (true, ascii "c")], 10 ∉ p.2) ∧
      render noParse none (listChain (true, ascii "a") [(false, ascii "b"), (true, ascii "c")])
        = .ok (ascii "+ a\n-- b\n+++ c") ∧
      ∃ lines, render noParse none
          (listChain (true, ascii "a") [(false, ascii "b"), (true, ascii "c")])
          = .ok (stringsJoin lines [10]) ∧
        lines.length = [(true, ascii "a"), (false, ascii "b"), (true, ascii "c")].length ∧
        ∀ j o t, [(true, ascii "a"), (false, ascii "b"), (true, ascii "c")][j]? = some (o, t) →
          lines[j]? = some (List.replicate (j + 1) (listMarker o) ++ 32 :: t) :=
  ⟨by decide, rfl,
    nested_list_marker_depth noParse none (true, ascii "a")
      [(false, ascii "b"), (true, ascii "c")] (by decide)⟩

/-! ## The dispatch and the propagation of errors -/

theorem render_eq_dispatch (up : GoString → Option GoString) (parent : Option NodeKind)
    (k : NodeKind) (blank : Bool) (cs : List Node) :
    render up parent (.mk k blank cs) =
      match dispatch up parent (fun hook => renderChildren up k hook cs true []) k with
      | .ok s => .ok s
      | .error .unhandledError => renderChildren up k .nil cs true []
      | .error err => .error err := by
  cases k <;> rfl

theorem Node.induction {P : Node → Prop}
    (h : ∀ k b cs, (∀ c ∈ cs, P c) → P (.mk k b cs)) (n : Node) : P n :=
  @Node.rec P (fun cs => ∀ c ∈ cs, P c) (fun k b cs ih => h k b cs ih)
    (fun c hc => absurd hc (List.not_mem_nil c))
    (fun c cs hc hcs x hx => by
      rcases List.mem_cons.mp hx with h1 | h1
      · rw [h1]
        exact hc
      · exact hcs x h1) n

theorem hookedChild_of_render_error (up : GoString → Option GoString) (n : NodeKind)
    (hook : Hook) (c : Node) (e : RenderError) (h : render up (some n) c = .error e) :
    hookedChild up n hook c = .error e := by
  cases c with
  | mk k blank cs =>
    simp only [hookedChild, h]

theorem renderChildren_first_fatal (up : GoString → Option GoString) (n : NodeKind)
    (hook : Hook) (pre : List Node) (c : Node) (post : List Node) (e : RenderError)
    (hpre : ∀ x ∈ pre, ∀ e1, hookedChild up n hook x = .error e1 → e1 = .skipElement)
    (hc : hookedChild up n hook c = .error e) (he : e ≠ .skipElement) (first : Bool)
    (rendered : List GoString) :
    renderChildren up n hook (pre ++ c :: post) first rendered = .error e := by
  induction pre generalizing first rendered with
  | nil =>
    rw [List.nil_append, renderChildren_cons, hc]
    cases e with
    | skipElement => exact absurd rfl he
    | unhandledError => rfl
    | panic => rfl
  | cons x pre ih =>
    have hrest := ih (fun y hy => hpre y (List.mem_cons_of_mem _ hy))
    rw [List.cons_append, renderChildren_cons]
    cases hx : hookedChild up n hook x with
    | error e1 =>
      have := hpre x (List.mem_cons_self _ _) e1 hx
      subst this
      exact hrest false rendered
    | ok s => exact hrest false _

theorem render_of_children_error (up : GoString → Option GoString)
    (parent : Option NodeKind) (k : NodeKind) (blank : Bool) (cs : List Node) (hook : Hook)
    (e : RenderError) (hh : childHook parent k = some hook)
    (h : renderChildren up k hook cs true [] = .error e) (he : e ≠ .unhandledError) :
    render up parent (.mk k blank cs) = .error e := by
  rw [render_eq_dispatch]
  cases e with
  | unhandledError => exact absurd rfl he
  | skipElement =>
    cases k <;> simp only [childHook, Option.some.injEq, reduceCtorEq] at hh <;>
      first
      | (subst hh; simp [dispatch, autoLink, blockquote, codeSpan, document, emphasis,
          htmlBlock, heading, list, paragraph, rawHTML, stringNode, textBlock,
          definitionDescription, definitionList, definitionTerm, footnote, footnoteBacklink,
          footnoteLink, footnoteList, strikethrough, table, tableCell, tableHeader, tableRow,
          taskCheckBox, h])
      | (split at hh <;> simp only [Option.some.injEq, reduceCtorEq] at hh
         subst hh
         simp [dispatch, listItem, h])
  | panic =>
    cases k <;> simp only [childHook, Option.some.injEq, reduceCtorEq] at hh <;>
      first
      | (subst hh; simp [dispatch, autoLink, blockquote, codeSpan, document, emphasis,
          htmlBlock, heading, list, paragraph, rawHTML, stringNode, textBlock,
          definitionDescription, definitionList, definitionTerm, footnote, footnoteBacklink,
          footnoteLink, footnoteList, strikethrough, table, tableCell, tableHeader, tableRow,
          taskCheckBox, h])
      | (split at hh <;> simp only [Option.some.injEq, reduceCtorEq] at hh
         subst hh
         simp [dispatch, listItem, h])

theorem Render_of_render_error (up : GoString → Option GoString)
    (parent : Option NodeKind) (n : Node) (e : RenderError)
    (h : render up parent n = .error e) : Render up parent n = .error e := by
  unfold Render
  rw [h]

/-- C15: when the traversal first meets an error `e` other than the two sentinels at a
node (by rendering it or by the hook applied to it), the children before it at every
level having yielded a fragment or been skipped, rendering every ancestor `n` of that
node fails with the same error `e`, and so does `Render`. -/
theorem fatal_error_propagates (up : GoString → Option GoString) (e : RenderError)
    (parent : Option NodeKind) (n : Node) (h : FirstFatal up e parent n)
    (he1 : e ≠ .skipElement) (he2 : e ≠ .unhandledError) :
    render up parent n = .error e ∧ Render up parent n = .error e := by
  have hr : render up parent n = .error e := by
    induction h with
    | self parent n hn => exact hn
    | hook parent k blank pre c post hk hh hpre hc =>
      exact render_of_children_error up parent k blank _ hk e hh
        (renderChildren_first_fatal up k hk pre c post e hpre hc he1 true []) he2
    | above parent k blank pre c post hk hh hpre _ ih =>
      exact render_of_children_error up parent k blank _ hk e hh
        (renderChildren_first_fatal up k hk pre c post e hpre
          (hookedChild_of_render_error up k hk c e ih) he1 true []) he2
  exact ⟨hr, Render_of_render_error up parent n e hr⟩

theorem fatal_error_propagates_witness :
    FirstFatal noParse .panic none strayListItem ∧
      render noParse none strayListItem = .error .panic ∧
      Render noParse none strayListItem = .error .panic :=
  have h : FirstFatal noParse .panic none strayListItem :=
    .above none .document false [.mk .paragraph false [plainText "a"]]
      (.mk .blockquote false [.mk .listItem false [textBlockOf (ascii "b")]]) [] .nil rfl
      (fun x hx e1 he1 => by
        rw [List.mem_singleton.mp hx,
          show hookedChild noParse .document .nil (.mk .paragraph false [plainText "a"])
            = Except.ok [97] from rfl] at he1
        cases he1)
      (.hook (some .document) .blockquote false []
        (.mk .listItem false [textBlockOf (ascii "b")]) [] .nil rfl
        (fun x hx => absurd hx (List.not_mem_nil x)) rfl)
  ⟨h, fatal_error_propagates noParse .panic none strayListItem h (by decide) (by decide)⟩

/-! ## The sentinels and the top-level `Render` -/

theorem tableWalk_nil (up : GoString → Option GoString) (al : List Alignment)
    (parent : NodeKind) (idx : Nat) (results : List GoString) :
    tableWalk up al parent [] idx results = .ok (idx, results) := rfl

theorem tableWalk_cons_cell (up : GoString → Option GoString) (al : List Alignment)
    (parent : NodeKind) (a : Alignment) (blank : Bool) (ccs rest : List Node) (idx : Nat)
    (results : List GoString) :
    tableWalk up al parent (.mk (.tableCell a) blank ccs :: rest) idx results =
      match tableCellStep al idx results a
        (render up (some parent) (.mk (.tableCell a) blank ccs)) with
      | .error err => .error err
      | .ok (i, r) => tableWalk up al parent rest i r := rfl

theorem tableWalk_cons_other (up : GoString → Option GoString) (al : List Alignment)
    (parent : NodeKind) (k : NodeKind) (blank : Bool) (ccs rest : List Node) (idx : Nat)
    (results : List GoString) (hk : ∀ a, k ≠ .tableCell a) :
    tableWalk up al parent (.mk k blank ccs :: rest) idx results =
      match tableWalk up al k ccs idx results with
      | .error err => .error err
      | .ok (i, r) => tableWalk up al parent rest i r := by
  cases k <;> first | rfl | exact absurd rfl (hk _)

theorem hookedChild_table_cell (up : GoString → Option GoString) (n : NodeKind)
    (al : List Alignment) (a : Alignment) (blank : Bool) (ccs : List Node) (g : GoString)
    (h : render up (some n) (.mk (.tableCell a) blank ccs) = .ok g) :
    hookedChild up n (.table al) (.mk (.tableCell a) blank ccs) =
      tableRowEnd false (tableCellStep al 0 [] a (.ok g)) := by
  simp only [hookedChild, h]

theorem hookedChild_table_other (up : GoString → Option GoString) (n : NodeKind)
    (al : List Alignment) (k : NodeKind) (blank : Bool) (ccs : List Node) (g : GoString)
    (hk : ∀ a, k ≠ .tableCell a) (h : render up (some n) (.mk k blank ccs) = .ok g) :
    hookedChild up n (.table al) (.mk k blank ccs) =
      tableRowEnd (decide (k = .tableHeader)) (tableWalk up al k ccs 0 []) := by
  cases k <;> first | exact absurd rfl (hk _) | (simp only [hookedChild, h])

theorem isCell_or_not (k : NodeKind) : (∃ a, k = .tableCell a) ∨ ∀ a, k ≠ .tableCell a := by
  cases k <;> first | exact Or.inl ⟨_, rfl⟩ | exact Or.inr (fun a h => by cases h)

theorem tableCellStep_error (al : List Alignment) (idx : Nat) (results : List GoString)
    (a : Alignment) (r : Result) (e : RenderError)
    (h : tableCellStep al idx results a r = .error e) : e = .panic ∨ r = .error e := by
  unfold tableCellStep at h
  cases hal : al[idx]? with
  | none =>
    simp only [hal] at h
    exact Or.inl (Except.error.inj h).symm
  | some x =>
    simp only [hal] at h
    cases r with
    | error e1 =>
      simp only at h
      exact Or.inr (by rw [Except.error.inj h])
    | ok g =>
      simp only [] at h
      split at h
      · cases h
      · split at h <;> cases h

theorem tableRowEnd_error (isHeader : Bool) (w : Except RenderError (Nat × List GoString))
    (e : RenderError) (h : tableRowEnd isHeader w = .error e) : w = .error e := by
  unfold tableRowEnd at h
  cases w with
  | error e1 =>
    simp only at h
    rw [Except.error.inj h]
  | ok p =>
    obtain ⟨i, r⟩ := p
    simp only at h
    split at h <;> cases h

theorem tableWalk_error_is_panic (up : GoString → Option GoString) (al : List Alignment)
    (cs : List Node) (hcs : ∀ c ∈ cs, SentinelsAbsorbed up c) (parent : NodeKind) (idx : Nat)
    (results : List GoString) (e : RenderError)
    (h : tableWalk up al parent cs idx results = .error e) : e = .panic := by
  induction cs generalizing idx results with
  | nil => cases h
  | cons c rest ih =>
    have hc := hcs c (List.mem_cons_self _ _)
    have hrest := ih (fun x hx => hcs x (List.mem_cons_of_mem _ hx))
    obtain ⟨k, blank, ccs⟩ := c
    rcases isCell_or_not k with ⟨a, rfl⟩ | hk
    · rw [tableWalk_cons_cell] at h
      cases hs : tableCellStep al idx results a
          (render up (some parent) (.mk (.tableCell a) blank ccs)) with
      | error e1 =>
        rw [hs] at h
        cases h
        rcases tableCellStep_error _ _ _ _ _ _ hs with h1 | h1
        · exact h1
        · rcases hc.1 _ _ h1 with h2 | ⟨_, h2⟩
          · exact h2
          · cases h2
      | ok p =>
        rw [hs] at h
        exact hrest _ _ h
    · rw [tableWalk_cons_other up al parent k blank ccs rest idx results hk] at h
      cases hs : tableWalk up al k ccs idx results with
      | error e1 =>
        rw [hs] at h
        cases h
        exact hc.2 al idx results _ hs
      | ok p =>
        rw [hs] at h
        exact hrest _ _ h

theorem listItemHook_ok (ordered : Bool) (k : NodeKind) (g : GoString) :
    ∃ s, listItemHook ordered k g = .ok s := by
  cases k <;> cases ordered <;> exact ⟨_, rfl⟩

theorem hookedChild_error (up : GoString → Option GoString) (n : NodeKind) (hook : Hook)
    (c : Node) (hc : SentinelsAbsorbed up c) (e : RenderError)
    (h : hookedChild up n hook c = .error e) : e = .panic ∨ e = .skipElement := by
  obtain ⟨k, blank, ccs⟩ := c
  cases hr : render up (some n) (.mk k blank ccs) with
  | error e1 =>
    rw [hookedChild_of_render_error up n hook _ e1 hr] at h
    cases h
    rcases hc.1 _ _ hr with h1 | ⟨h1, _⟩
    · exact Or.inl h1
    · exact Or.inr h1
  | ok g =>
    cases hook with
    | nil =>
      rw [hookedChild_nil, hr] at h
      cases h
    | listItem ordered =>
      obtain ⟨s, hs⟩ := listItemHook_ok ordered k g
      simp only [hookedChild, hr, hs] at h
      cases h
    | table al =>
      rcases isCell_or_not k with ⟨a, rfl⟩ | hk
      · rw [hookedChild_table_cell up n al a blank ccs g hr] at h
        rcases tableCellStep_error _ _ _ _ _ _ (tableRowEnd_error _ _ _ h) with h1 | h1
        · exact Or.inl h1
        · cases h1
      · rw [hookedChild_table_other up n al k blank ccs g hk hr] at h
        exact Or.inl (hc.2 al 0 [] e (tableRowEnd_error _ _ _ h))

theorem renderChildren_error_is_panic (up : GoString → Option GoString) (n : NodeKind)
    (hook : Hook) (cs : List Node) (hcs : ∀ c ∈ cs, SentinelsAbsorbed up c) (first : Bool)
    (rendered : List GoString) (e : RenderError)
    (h : renderChildren up n hook cs first rendered = .error e) : e = .panic := by
  induction cs generalizing first rendered with
  | nil => cases h
  | cons c rest ih =>
    have hrest := ih (fun x hx => hcs x (List.mem_cons_of_mem _ hx))
    rw [renderChildren_cons] at h
    cases hh : hookedChild up n hook c with
    | error e1 =>
      rw [hh] at h
      rcases hookedChild_error up n hook c (hcs c (List.mem_cons_self _ _)) e1 hh with h1 | h1
      · subst h1
        cases h
        rfl
      · subst h1
        exact hrest _ _ h
    | ok s =>
      rw [hh] at h
      exact hrest _ _ h

theorem dispatch_error (up : GoString → Option GoString) (parent : Option NodeKind)
    (rc : Hook → Result) (k : NodeKind) (e : RenderError)
    (hrc : ∀ hook e1, rc hook = .error e1 → e1 = .panic)
    (h : dispatch up parent rc k = .error e) :
    e = .panic ∨ e = .unhandledError ∨ (e = .skipElement ∧ k = .thematicBreak) := by
  cases k <;> simp only [dispatch] at h
  case blockquote =>
    unfold blockquote at h
    cases hr : rc .nil with
    | error e1 =>
      rw [hr] at h
      cases h
      exact Or.inl (hrc _ _ hr)
    | ok s =>
      rw [hr] at h
      cases h
  case codeSpan =>
    unfold codeSpan at h
    cases hr : rc .nil with
    | error e1 =>
      rw [hr] at h
      cases h
      exact Or.inl (hrc _ _ hr)
    | ok s =>
      rw [hr] at h
      cases h
  case emphasis L =>
    unfold emphasis at h
    cases hr : rc .nil with
    | error e1 =>
      rw [hr] at h
      cases h
      exact Or.inl (hrc _ _ hr)
    | ok s =>
      rw [hr] at h
      simp only at h
      split at h <;> cases h
  case heading L =>
    unfold heading at h
    cases hr : rc .nil with
    | error e1 =>
      rw [hr] at h
      cases h
      exact Or.inl (hrc _ _ hr)
    | ok s =>
      rw [hr] at h
      simp only at h
      repeat' split at h
      all_goals first | (cases h; exact Or.inl rfl) | cases h
  case listItem =>
    unfold listItem at h
    split at h
    · exact Or.inl (hrc _ _ h)
    · cases h
      exact Or.inl rfl
  case table al => exact Or.inl (hrc _ _ h)
  case thematicBreak =>
    cases h
    exact Or.inr (Or.inr ⟨rfl, rfl⟩)
  case text v hb sb =>
    cases v with
    | none =>
      cases h
      exact Or.inl rfl
    | some v =>
      simp only [text] at h
      split at h <;> cases h
  case codeBlock lines =>
    cases lines with
    | none =>
      cases h
      exact Or.inl rfl
    | some ls => cases h
  case fencedCodeBlock lines =>
    cases lines with
    | none =>
      cases h
      exact Or.inl rfl
    | some ls => cases h
  case image d => cases h
  case link t d =>
    cases t with
    | none =>
      cases h
      exact Or.inl rfl
    | some t => cases h
  case other i => cases h
  all_goals
    cases h
    exact Or.inr (Or.inl rfl)

/-- Every error of `render` is a panic, or the skip sentinel at a thematic break. -/
theorem sentinelsAbsorbed (up : GoString → Option GoString) (n : Node) :
    SentinelsAbsorbed up n := by
  induction n using Node.induction with
  | h k blank cs ih =>
    have hrc : ∀ hook e1, renderChildren up k hook cs true [] = .error e1 → e1 = .panic :=
      fun hook e1 h1 => renderChildren_error_is_panic up k hook cs ih true [] e1 h1
    refine ⟨fun parent e h => ?_, fun al idx results e h => ?_⟩
    · rw [render_eq_dispatch] at h
      cases hd : dispatch up parent (fun hook => renderChildren up k hook cs true []) k with
      | ok s =>
        rw [hd] at h
        cases h
      | error e1 =>
        rw [hd] at h
        rcases dispatch_error up parent _ k e1 hrc hd with h1 | h1 | ⟨h1, h2⟩
        · subst h1
          cases h
          exact Or.inl rfl
        · subst h1
          exact Or.inl (hrc .nil e h)
        · subst h1
          cases h
          exact Or.inr ⟨rfl, h2⟩
    · exact tableWalk_error_is_panic up al cs ih k idx results e h

theorem Render_error_cases (up : GoString → Option GoString) (parent : Option NodeKind)
    (n : Node) (e : RenderError) (h : Render up parent n = .error e) :
    e = .panic ∨ (e = .skipElement ∧ n.kind = .thematicBreak) := by
  unfold Render at h
  cases hr : render up parent n with
  | error e1 =>
    rw [hr] at h
    cases h
    exact (sentinelsAbsorbed up n).1 parent _ hr
  | ok s =>
    rw [hr] at h
    simp only at h
    split at h <;> cases h

/-- C14 (the code at the failing input): for a root that is a thematic break, `Render`
returns the skip sentinel to its caller as an error; the unhandled sentinel is never
returned by `Render`, whatever the tree. -/
theorem Render_reports_skip_at_thematicBreak_root (up : GoString → Option GoString)
    (parent : Option NodeKind) (blank : Bool) (cs : List Node) :
    Render up parent (.mk .thematicBreak blank cs) = .error .skipElement ∧
      ∀ n, Render up parent n ≠ .error .unhandledError := by
  refine ⟨rfl, fun n h => ?_⟩
  rcases Render_error_cases up parent n _ h with h1 | ⟨h1, _⟩ <;> cases h1

/-! ## Well-formed trees render -/

theorem wellFormed_mk (parent : Option NodeKind) (k : NodeKind) (blank : Bool)
    (cs : List Node) :
    wellFormed parent (.mk k blank cs) = (nodeGuard parent k cs && wellFormedList k cs) := rfl

theorem wellFormedList_cons (parent : NodeKind) (c : Node) (cs : List Node) :
    wellFormedList parent (c :: cs) = (wellFormed (some parent) c && wellFormedList parent cs) :=
  rfl

theorem levelsNonNegative_mk (k : NodeKind) (blank : Bool) (cs : List Node) :
    levelsNonNegative (.mk k blank cs) =
      ((match k with
        | .heading level => decide (0 ≤ level)
        | _ => true) && levelsNonNegativeList cs) := by
  cases k <;> rfl

theorem levelsNonNegativeList_cons (c : Node) (cs : List Node) :
    levelsNonNegativeList (c :: cs) = (levelsNonNegative c && levelsNonNegativeList cs) := rfl

theorem walkCells_cons_cell (a : Alignment) (blank : Bool) (ccs rest : List Node) :
    walkCells (.mk (.tableCell a) blank ccs :: rest) = 1 + walkCells rest := rfl

theorem walkCells_cons_other (k : NodeKind) (blank : Bool) (ccs rest : List Node)
    (hk : ∀ a, k ≠ .tableCell a) :
    walkCells (.mk k blank ccs :: rest) = walkCells ccs + walkCells rest := by
  cases k <;> first | exact absurd rfl (hk _) | rfl

theorem rowCells_cell (a : Alignment) (blank : Bool) (ccs : List Node) :
    rowCells (.mk (.tableCell a) blank ccs) = 1 := rfl

theorem rowCells_other (k : NodeKind) (blank : Bool) (ccs : List Node)
    (hk : ∀ a, k ≠ .tableCell a) : rowCells (.mk k blank ccs) = walkCells ccs := by
  cases k <;> first | exact absurd rfl (hk _) | rfl

theorem levelsNonNegative_children (k : NodeKind) (blank : Bool) (cs : List Node)
    (h : levelsNonNegative (.mk k blank cs) = true) : levelsNonNegativeList cs = true := by
  rw [levelsNonNegative_mk, Bool.and_eq_true] at h
  exact h.2

theorem spansResolve_mk (k : NodeKind) (blank : Bool) (cs : List Node) :
    spansResolve (.mk k blank cs) = (kindResolves k && spansResolveList cs) := rfl

theorem spansResolveList_cons (c : Node) (cs : List Node) :
    spansResolveList (c :: cs) = (spansResolve c && spansResolveList cs) := rfl

theorem spansResolve_children (k : NodeKind) (blank : Bool) (cs : List Node)
    (h : spansResolve (.mk k blank cs) = true) : spansResolveList cs = true := by
  rw [spansResolve_mk, Bool.and_eq_true] at h
  exact h.2

theorem wellFormed_children (parent : Option NodeKind) (k : NodeKind) (blank : Bool)
    (cs : List Node) (h : wellFormed parent (.mk k blank cs) = true) :
    wellFormedList k cs = true := by
  rw [wellFormed_mk, Bool.and_eq_true] at h
  exact h.2

theorem tableWalk_ok_of_wellFormed (up : GoString → Option GoString) (al : List Alignment)
    (cs : List Node) (hcs : ∀ c ∈ cs, RendersWhenWellFormed up c) (parent : NodeKind)
    (idx : Nat) (results : List GoString) (hwf : wellFormedList parent cs = true)
    (hlv : levelsNonNegativeList cs = true) (hsp : spansResolveList cs = true)
    (hlen : idx + walkCells cs ≤ al.length) :
    ∃ r, tableWalk up al parent cs idx results = .ok (idx + walkCells cs, r) := by
  induction cs generalizing idx results with
  | nil => exact ⟨results, rfl⟩
  | cons c rest ih =>
    have hc := hcs c (List.mem_cons_self _ _)
    have hrest := ih (fun x hx => hcs x (List.mem_cons_of_mem _ hx))
    rw [wellFormedList_cons, Bool.and_eq_true] at hwf
    rw [levelsNonNegativeList_cons, Bool.and_eq_true] at hlv
    rw [spansResolveList_cons, Bool.and_eq_true] at hsp
    obtain ⟨k, blank, ccs⟩ := c
    rcases isCell_or_not k with ⟨a, rfl⟩ | hk
    · rw [walkCells_cons_cell] at hlen ⊢
      obtain ⟨g, hg⟩ := hc.1 (some parent) hwf.1 hlv.1 hsp.1 (by simp [Node.kind])
      obtain ⟨r, hr⟩ := hrest (idx + 1)
        (results ++ [cellFragmentSpec (effectiveAlignment al idx a) g]) hwf.2 hlv.2 hsp.2
        (by omega)
      refine ⟨r, ?_⟩
      rw [tableWalk_cons_cell, hg, tableCellStep_ok al idx results a g (by omega)]
      simp only
      rw [hr, Nat.add_assoc]
    · rw [walkCells_cons_other k blank ccs rest hk] at hlen ⊢
      obtain ⟨r1, hr1⟩ := hc.2 al idx results (wellFormed_children _ _ _ _ hwf.1)
        (levelsNonNegative_children _ _ _ hlv.1) (spansResolve_children _ _ _ hsp.1)
        (by simp only [Node.children]; omega)
      simp only [Node.kind, Node.children] at hr1
      obtain ⟨r, hr⟩ := hrest (idx + walkCells ccs) r1 hwf.2 hlv.2 hsp.2 (by omega)
      refine ⟨r, ?_⟩
      rw [tableWalk_cons_other up al parent k blank ccs rest idx results hk, hr1]
      simp only
      rw [hr, Nat.add_assoc]

theorem tableRowEnd_ok (isHeader : Bool) (p : Nat × List GoString) :
    ∃ s, tableRowEnd isHeader (.ok p) = .ok s := by
  obtain ⟨i, r⟩ := p
  cases isHeader <;> exact ⟨_, rfl⟩

theorem hookedChild_ok_of_wellFormed (up : GoString → Option GoString) (n : NodeKind)
    (hook : Hook) (c : Node) (hc : RendersWhenWellFormed up c)
    (hwf : wellFormed (some n) c = true) (hlv : levelsNonNegative c = true)
    (hsp : spansResolve c = true)
    (hcond : ∀ al, hook = .table al → rowCells c ≤ al.length) :
    (∃ s, hookedChild up n hook c = .ok s) ∨ hookedChild up n hook c = .error .skipElement := by
  obtain ⟨k, blank, ccs⟩ := c
  by_cases hk : k = .thematicBreak
  · subst hk
    exact Or.inr (hookedChild_thematicBreak up n hook blank ccs)
  · obtain ⟨g, hg⟩ := hc.1 (some n) hwf hlv hsp hk
    left
    cases hook with
    | nil => exact ⟨g, by rw [hookedChild_nil, hg]⟩
    | listItem ordered =>
      obtain ⟨s, hs⟩ := listItemHook_ok ordered k g
      exact ⟨s, by simp only [hookedChild, hg, hs]⟩
    | table al =>
      have hrow := hcond al rfl
      rcases isCell_or_not k with ⟨a, rfl⟩ | hcell
      · rw [rowCells_cell] at hrow
        rw [hookedChild_table_cell up n al a blank ccs g hg,
          tableCellStep_ok al 0 [] a g (by omega)]
        exact tableRowEnd_ok _ _
      · rw [rowCells_other k blank ccs hcell] at hrow
        obtain ⟨r, hr⟩ := hc.2 al 0 [] (wellFormed_children _ _ _ _ hwf)
          (levelsNonNegative_children _ _ _ hlv) (spansResolve_children _ _ _ hsp)
          (by simp only [Node.children]; omega)
        simp only [Node.kind, Node.children] at hr
        rw [hookedChild_table_other up n al k blank ccs g hcell hg, hr]
        exact tableRowEnd_ok _ _

theorem renderChildren_ok_of_wellFormed (up : GoString → Option GoString) (n : NodeKind)
    (hook : Hook) (cs : List Node) (hcs : ∀ c ∈ cs, RendersWhenWellFormed up c)
    (hwf : wellFormedList n cs = true) (hlv : levelsNonNegativeList cs = true)
    (hsp : spansResolveList cs = true)
    (hcond : ∀ al, hook = .table al → ∀ c ∈ cs, rowCells c ≤ al.length) (first : Bool)
    (rendered : List GoString) :
    ∃ s, renderChildren up n hook cs first rendered = .ok s := by
  induction cs generalizing first rendered with
  | nil => exact ⟨_, rfl⟩
  | cons c rest ih =>
    rw [wellFormedList_cons, Bool.and_eq_true] at hwf
    rw [levelsNonNegativeList_cons, Bool.and_eq_true] at hlv
    rw [spansResolveList_cons, Bool.and_eq_true] at hsp
    have hrest := ih (fun x hx => hcs x (List.mem_cons_of_mem _ hx)) hwf.2 hlv.2 hsp.2
      (fun al hal x hx => hcond al hal x (List.mem_cons_of_mem _ hx))
    rw [renderChildren_cons]
    rcases hookedChild_ok_of_wellFormed up n hook c (hcs c (List.mem_cons_self _ _)) hwf.1
      hlv.1 hsp.1 (fun al hal => hcond al hal c (List.mem_cons_self _ _)) with ⟨s, hs⟩ | hs
    · rw [hs]
      exact hrest _ _
    · rw [hs]
      exact hrest _ _

theorem render_codeSpan_ok (up : GoString → Option GoString) (parent : Option NodeKind)
    (blank : Bool) (cs : List Node) (s : GoString)
    (h : renderChildren up .codeSpan .nil cs true [] = .ok s) :
    render up parent (.mk .codeSpan blank cs) = .ok ([39, 39] ++ s ++ [39, 39]) := by
  show (match codeSpan (fun hook => renderChildren up .codeSpan hook cs true []) with
    | .ok s => .ok s
    | .error .unhandledError => renderChildren up .codeSpan .nil cs true []
    | .error err => .error err : Result) = _
  unfold codeSpan
  simp only [h]

/-- Every node carries the induction statement of well-formed trees. -/
theorem rendersWhenWellFormed (up : GoString → Option GoString) (n : Node) :
    RendersWhenWellFormed up n := by
  induction n using Node.induction with
  | h k blank cs ih =>
    refine ⟨fun parent hwf hlv hsp hk => ?_, fun al idx results hwfl hlvl hspl hlen => ?_⟩
    · have hwfl := wellFormed_children parent k blank cs hwf
      have hlvl := levelsNonNegative_children k blank cs hlv
      have hspl := spansResolve_children k blank cs hsp
      have hkr : kindResolves k = true := by
        rw [spansResolve_mk, Bool.and_eq_true] at hsp
        exact hsp.1
      have hrc : ∀ hook, (∀ al, hook = .table al → ∀ c ∈ cs, rowCells c ≤ al.length) →
          ∃ s, renderChildren up k hook cs true [] = .ok s :=
        fun hook hcond =>
          renderChildren_ok_of_wellFormed up k hook cs ih hwfl hlvl hspl hcond true []
      have hnil := hrc .nil (fun al hal => by cases hal)
      · cases k
        case blockquote =>
          obtain ⟨s, hs⟩ := hnil
          exact ⟨_, render_blockquote_ok up parent blank cs s hs⟩
        case codeBlock lines =>
          cases lines with
          | none => cases hkr
          | some ls => exact ⟨_, rfl⟩
        case codeSpan =>
          obtain ⟨s, hs⟩ := hnil
          exact ⟨_, render_codeSpan_ok up parent blank cs s hs⟩
        case emphasis L =>
          obtain ⟨s, hs⟩ := hnil
          rw [render_emphasis_ok up parent L blank cs s hs]
          by_cases h1 : L = 1
          · exact ⟨_, if_pos h1⟩
          · exact ⟨_, if_neg h1⟩
        case fencedCodeBlock lines =>
          cases lines with
          | none => cases hkr
          | some ls => exact ⟨_, rfl⟩
        case heading L =>
          obtain ⟨s, hs⟩ := hnil
          rw [levelsNonNegative_mk, Bool.and_eq_true] at hlv
          have hL : 0 ≤ L := of_decide_eq_true hlv.1
          exact ⟨_, render_heading_ok up parent L blank cs s hL hs⟩
        case image d => exact ⟨_, rfl⟩
        case link t d =>
          cases t with
          | none => cases hkr
          | some t => exact ⟨_, rfl⟩
        case listItem =>
          rw [wellFormed_mk, Bool.and_eq_true] at hwf
          have hg := hwf.1
          unfold nodeGuard at hg
          simp only at hg
          split at hg
          · obtain ⟨s, hs⟩ := hrc (.listItem _) (fun al hal => by cases hal)
            exact ⟨s, render_listItem_ok up _ blank cs s hs⟩
          · cases hg
        case text v hb sb =>
          cases v with
          | none => cases hkr
          | some v => cases hb <;> cases sb <;> exact ⟨_, rfl⟩
        case thematicBreak => exact absurd rfl hk
        case table al =>
          rw [wellFormed_mk, Bool.and_eq_true] at hwf
          have hg := hwf.1
          simp only [nodeGuard, List.all_eq_true, decide_eq_true_eq] at hg
          obtain ⟨s, hs⟩ := hrc (.table al) (fun al1 hal c hc => by
            cases hal
            exact hg c hc)
          exact ⟨s, render_table up parent al blank cs s hs⟩
        case other i => exact ⟨_, rfl⟩
        all_goals exact hnil
    · exact tableWalk_ok_of_wellFormed up al cs ih k idx results hwfl hlvl hspl hlen

/-- C18 (as stated, refuted): the document holding one heading of level `-1` and the
document holding one paragraph whose text segment lies outside the source buffer have no
list item and no table, and their root is not a thematic break, yet computing the
fragment of the root fails: `strings.Repeat` panics on the negative count, and
`Segment.Value` panics on the range outside the buffer. -/
theorem negative_heading_level_panics :
    (wellFormed none negativeHeading = true ∧ negativeHeading.kind ≠ .thematicBreak ∧
        render noParse none negativeHeading = .error .panic) ∧
      (wellFormed none danglingText = true ∧ danglingText.kind ≠ .thematicBreak ∧
        render noParse none danglingText = .error .panic) :=
  ⟨⟨rfl, by decide, rfl⟩, ⟨rfl, by decide, rfl⟩⟩

/-- C18 (amended): for a tree in which the parent of every list item is a list, every
table row has at most as many cells as the alignment list of its table, no heading has
a negative level, and every text span, code-block line and link text lies within the
source buffer, computing the fragment of a root that is not a thematic break succeeds,
and so does `Render`; the only error the computation can yield is the skip sentinel, at
a root that is a thematic break. -/
theorem wellFormed_tree_renders (up : GoString → Option GoString)
    (parent : Option NodeKind) (n : Node) (hwf : wellFormed parent n = true)
    (hlv : levelsNonNegative n = true) (hsp : spansResolve n = true) :
    (n.kind ≠ .thematicBreak →
        ∃ s, render up parent n = .ok s ∧ ∃ out, Render up parent n = .ok out) ∧
      (∀ e, render up parent n = .error e → n.kind = .thematicBreak ∧ e = .skipElement) := by
  have hok : n.kind ≠ .thematicBreak → ∃ s, render up parent n = .ok s :=
    (rendersWhenWellFormed up n).1 parent hwf hlv hsp
  refine ⟨fun hk => ?_, fun e he => ?_⟩
  · obtain ⟨s, hs⟩ := hok hk
    refine ⟨s, hs, ?_⟩
    unfold Render
    rw [hs]
    simp only
    split <;> exact ⟨_, rfl⟩
  · by_cases hk : n.kind = .thematicBreak
    · refine ⟨hk, ?_⟩
      rcases (sentinelsAbsorbed up n).1 parent e he with h1 | ⟨h1, _⟩
      · subst h1
        obtain ⟨k, blank, cs⟩ := n
        simp only [Node.kind] at hk
        subst hk
        cases he
      · exact h1
    · obtain ⟨s, hs⟩ := hok hk
      rw [hs] at he
      cases he

theorem wellFormed_tree_renders_witness :
    wellFormed none sampleDocument = true ∧ levelsNonNegative sampleDocument = true ∧
      spansResolve sampleDocument = true ∧ sampleDocument.kind ≠ .thematicBreak ∧
      render noParse none sampleDocument
        = .ok (ascii "** T\n- a\n++ b\n|LEFT:A|RIGHT:B|h\n|LEFT:1|RIGHT:2|\n\n[[x:u]]\n c") ∧
      ∃ s, render noParse none sampleDocument = .ok s ∧
        ∃ out, Render noParse none sampleDocument = .ok out :=
  ⟨rfl, rfl, rfl, by decide, rfl,
    (wellFormed_tree_renders noParse none sampleDocument rfl rfl rfl).1 (by decide)⟩

end Md2Puki
